import Mathlib

/-!
Shallow embedding of the table-assignment engine of the timeleftegypt
repository (src/algorithms/tableAssignment.js) and of the session-exit
cleanup hook (src/contexts/AuthContext.js), together with proofs of the
testable properties stated in the specification.

Modelling conventions:
- JavaScript strings are Lean String values; a possibly-undefined string
  field is an Option String (none = undefined).
- JavaScript arrays are Lean lists; in-place mutation is modelled by
  explicit functional update, applied in the same order as the source.
- The numeric results of getTableDistributionStats are Option Nat:
  none stands for a value that is not a finite natural number (NaN or
  Infinity arising from a division by zero in the source).
- Math.random-driven choices in shuffleTables are modelled by an
  arbitrary function rand : Nat -> Nat, taken modulo the live range, so
  that every sequence of valid random choices is realised by some rand.
- A location bucket key in assignByLocation is the pair of rounded
  coordinates (the source renders it as the string "lat-lng", which is
  injective on such pairs), with none for the sentinel "unknown" key.
-/

namespace TimeLeft

/-- Decimal digit list of a natural number, most significant first.
Fuel-based so that it reduces definitionally; natDecimalFuel (n+1) n is
the rendering used by the source's template literals. -/
def natDecimalFuel : Nat → Nat → List Char
  | 0, _ => []
  | fuel + 1, n =>
    if n < 10 then [Nat.digitChar n]
    else natDecimalFuel fuel (n / 10) ++ [Nat.digitChar (n % 10)]

/-- Decimal rendering of a natural number, as JavaScript string
interpolation produces for a nonnegative integer. -/
def natToString (n : Nat) : String :=
  String.mk (natDecimalFuel (n + 1) n)

/-- JavaScript logical-or on possibly-undefined strings: the left operand
wins unless it is undefined or the empty string (falsy). -/
def jsOrS : Option String → Option String → Option String
  | some s, b => if s = "" then b else some s
  | none, b => b

/-- Index of the first element satisfying a predicate (Array.findIndex). -/
def findIndex (p : α → Bool) : List α → Option Nat
  | [] => none
  | a :: l => if p a then some 0 else (findIndex p l).map (· + 1)

/-- Functional update of a list at one index; out-of-range indices leave
the list unchanged. Models in-place mutation of one array element. -/
def modifyAt (l : List α) (i : Nat) (f : α → α) : List α :=
  match l[i]? with
  | some a => l.set i (f a)
  | none => l

/-- Exchange of the elements at two indices (the destructuring swap used
by the Fisher-Yates loop); out-of-range indices leave the list unchanged. -/
def listSwap (l : List α) (i j : Nat) : List α :=
  match l[i]?, l[j]? with
  | some a, some b => (l.set i b).set j a
  | _, _ => l

/-- Geographical coordinates as stored on a user profile. -/
structure Location where
  latitude : ℚ
  longitude : ℚ
deriving DecidableEq

/-- User record as consumed by the assignment engine. -/
structure User where
  id : Option String
  displayName : Option String
  name : Option String
  fullName : Option String
  photoURL : Option String
  gender : Option String
  preferences : Option String
  location : Option Location
deriving DecidableEq, Inhabited

/-- Member snapshot stored inside a table: the denormalized copy of the
user fields pushed by assignRoundRobin. -/
structure Member where
  id : Option String
  name : Option String
  fullName : Option String
  photoURL : Option String
  gender : Option String
  preferences : Option String
deriving DecidableEq, Inhabited

/-- Dining table document. -/
structure Table where
  id : String
  name : String
  members : List Member
deriving DecidableEq, Inhabited

/-- Settings record read by the engine. -/
structure Settings where
  maxPeoplePerTable : Nat
  considerLocation : Bool
deriving DecidableEq

/-- Member snapshot built from a user when the user is seated
(the object literal pushed in assignRoundRobin). -/
def memberOfUser (u : User) : Member :=
  { id := u.id
    name := jsOrS u.displayName u.name
    fullName := u.fullName
    photoURL := u.photoURL
    gender := u.gender
    preferences := u.preferences }

/-- Table id derived from a 1-based ordinal position, as the template
literal of the source renders it. -/
def tableIdFor (k : Nat) : String :=
  "table-" ++ natToString k

/-- Table display name derived from a 1-based ordinal position. -/
def tableNameFor (k : Nat) : String :=
  "Table " ++ natToString k

/-- Fresh table literal created when no existing table has space;
k is its 1-based ordinal position in the working result list. -/
def newTable (k : Nat) (ms : List Member) : Table :=
  { id := tableIdFor k
    name := tableNameFor k
    members := ms }

/-- Scan of the working table list keeping the first strict improvement,
exactly as the for-loop over result in assignRoundRobin: idx is the
absolute index of the next table, minM the current minMembers, acc the
index of the current targetTable. -/
def pickTableAux : List Table → Nat → Nat → Option Nat → Option Nat
  | [], _, _, acc => acc
  | t :: rest, idx, minM, acc =>
    if t.members.length < minM then
      pickTableAux rest (idx + 1) t.members.length (some idx)
    else
      pickTableAux rest (idx + 1) minM acc

/-- Index of the table chosen by the target-table scan of
assignRoundRobin (none when every table is full, or there is none). -/
def pickTable (cap : Nat) (tables : List Table) : Option Nat :=
  pickTableAux tables 0 cap none

/-- Specification-side recursive rendering of the target-table scan: the
first table below the bound becomes the candidate and the scan continues
with the tightened bound, so the result is the first index attaining the
minimum member count among the tables with fewer members than the bound. -/
def firstBelow (bound : Nat) : List Table → Option Nat
  | [] => none
  | t :: ts =>
    if t.members.length < bound then
      match firstBelow t.members.length ts with
      | none => some 0
      | some p => some (p + 1)
    else
      (firstBelow bound ts).map (· + 1)

/-- One iteration of the user loop of assignRoundRobin: seat one user,
either on the chosen target table or on a freshly created table. -/
def rrStep (cap : Nat) (result : List Table) (u : User) : List Table :=
  match pickTable cap result with
  | some i =>
    match result[i]? with
    | some t =>
      if cap ≤ t.members.length then
        result ++ [newTable (result.length + 1) [memberOfUser u]]
      else
        result.set i { t with members := t.members ++ [memberOfUser u] }
    | none => result ++ [newTable (result.length + 1) [memberOfUser u]]
  | none => result ++ [newTable (result.length + 1) [memberOfUser u]]

/-- Round-robin assignment (assignRoundRobin in the source). -/
def assignRoundRobin (users : List User) (tables : List Table) (cap : Nat) :
    List Table :=
  users.foldl (rrStep cap) tables

/-- Bucket key of a user for location grouping: coordinates times 100,
rounded as Math.round does; none models the string key "unknown". -/
def locKey (u : User) : Option (ℤ × ℤ) :=
  u.location.map fun l => (round (l.latitude * 100), round (l.longitude * 100))

/-- Append a user to the bucket with the given key, creating the bucket at
the end if absent (JavaScript object insertion order). -/
def insertGroup (key : Option (ℤ × ℤ)) (u : User) :
    List (Option (ℤ × ℤ) × List User) → List (Option (ℤ × ℤ) × List User)
  | [] => [(key, [u])]
  | (k, us) :: rest =>
    if k = key then (k, us ++ [u]) :: rest
    else (k, us) :: insertGroup key u rest

/-- Location buckets built in insertion order (the locationGroups object
of assignByLocation, read back with Object.entries). -/
def locationGroups (users : List User) : List (Option (ℤ × ℤ) × List User) :=
  users.foldl (fun gs u => insertGroup (locKey u) u gs) []

/-- Location-aware assignment (assignByLocation in the source): each
bucket is round-robin-filled into fresh tables, appended after the
existing ones. -/
def assignByLocation (users : List User) (tables : List Table) (cap : Nat) :
    List Table :=
  tables ++ (locationGroups users).flatMap fun g => assignRoundRobin g.2 [] cap

/-- Set of already-seated member ids, in table-then-member order (the
assignedUserIds set of assignUsersToTables). -/
def allMemberIds (tables : List Table) : List (Option String) :=
  tables.flatMap fun t => t.members.map (·.id)

/-- Member ids seated at one table. -/
def memberIds (t : Table) : List (Option String) :=
  t.members.map (·.id)

/-- Two tables seat no common user id. -/
def disjointTables (a b : Table) : Prop :=
  ∀ x, x ∈ memberIds a → x ∉ memberIds b

/-- No user id appears in the member lists of two distinct tables of the
list (the no-duplicate-seating property). -/
def noDoubleSeating (tables : List Table) : Prop :=
  tables.Pairwise disjointTables

/-- Entry point assignUsersToTables of the source. -/
def assignUsersToTables (users : List User) (settings : Settings)
    (existingTables : List Table) : List Table :=
  let tables := existingTables
  let unassignedUsers :=
    users.filter fun u => decide (u.id ∉ allMemberIds tables)
  if settings.considerLocation then
    assignByLocation unassignedUsers tables settings.maxPeoplePerTable
  else
    assignRoundRobin unassignedUsers tables settings.maxPeoplePerTable

/-- Fisher-Yates loop of shuffleTables, from index i down to 1; the draw
at index i is rand i taken modulo i+1, covering every valid choice. -/
def fisherYatesAux (rand : Nat → Nat) : Nat → List Member → List Member
  | 0, l => l
  | i + 1, l => fisherYatesAux rand i (listSwap l (i + 1) (rand (i + 1) % (i + 2)))

/-- Full shuffle of a member list as performed by shuffleTables. -/
def fisherYates (rand : Nat → Nat) (l : List Member) : List Member :=
  fisherYatesAux rand (l.length - 1) l

/-- Sequential re-chunking loop of shuffleTables. Fuel-based so that it
reduces definitionally; the source loop diverges when cap = 0, a case
outside every valid settings record, and the fuel version returns [] there. -/
def chunkAux : Nat → Nat → List Member → List (List Member)
  | _, _, [] => []
  | 0, _, _ :: _ => []
  | fuel + 1, cap, a :: l =>
    if cap = 0 then []
    else (a :: l).take cap :: chunkAux fuel cap ((a :: l).drop cap)

/-- Chunks of size cap (last possibly smaller), as the redistribution
loop of shuffleTables slices them. -/
def chunkMembers (cap : Nat) (l : List Member) : List (List Member) :=
  chunkAux l.length cap l

/-- Shuffle entry point shuffleTables of the source; rand supplies the
random draws of the Fisher-Yates loop. -/
def shuffleTables (tables : List Table) (cap : Nat) (rand : Nat → Nat) :
    List Table :=
  let allUsers := tables.flatMap (·.members)
  let shuffledUsers := fisherYates rand allUsers
  (chunkMembers cap shuffledUsers).enum.map fun c => newTable (c.1 + 1) c.2

/-- Result record of moveUserBetweenTables. -/
structure MoveResult where
  success : Bool
  tables : List Table
  message : String
deriving DecidableEq

/-- Move operation moveUserBetweenTables of the source. The deep copy of
the input list is the identity on immutable values; the two in-place
mutations (splice on the source table, push on the destination table) are
applied sequentially, which reproduces the aliased behaviour when the two
table ids coincide. -/
def moveUserBetweenTables (tables : List Table) (userId : String)
    (fromTableId toTableId : String) (cap : Nat) : MoveResult :=
  let result := tables
  match findIndex (fun t => t.id == fromTableId) result,
        findIndex (fun t => t.id == toTableId) result with
  | some fi, some ti =>
    let toLen := ((result[ti]?).map (·.members.length)).getD 0
    if cap ≤ toLen then
      { success := false, tables := result, message := "Destination table is full" }
    else
      let fromMembers := ((result[fi]?).map (·.members)).getD []
      match findIndex (fun m => m.id == some userId) fromMembers with
      | none =>
        { success := false, tables := result
          message := "User not found in source table" }
      | some ui =>
        let user := (fromMembers[ui]?).getD default
        let r1 := modifyAt result fi fun t => { t with members := t.members.eraseIdx ui }
        let r2 := modifyAt r1 ti fun t => { t with members := t.members ++ [user] }
        { success := true, tables := r2, message := "User moved successfully" }
  | _, _ =>
    { success := false, tables := result, message := "Table not found" }

/-- Result record of getTableDistributionStats. Fields are Option Nat:
none models a result that is not a finite number (the NaN produced by the
divisions by zero when totalUsers = 0). -/
structure DistributionStats where
  totalTables : Option Nat
  averagePeoplePerTable : Option Nat
  tablesWithExtraPerson : Option Nat
  tablesWithNormalCount : Option Nat
deriving DecidableEq

/-- Ceiling division as Math.ceil(a / b) on naturals; none when the
divisor is zero (Infinity or NaN in the source). -/
def jsCeilDiv (a b : Nat) : Option Nat :=
  if b = 0 then none else some ((a + b - 1) / b)

/-- Floor division as Math.floor(a / b); none when the divisor is zero or
itself undefined. -/
def jsFloorDivOpt (a : Nat) : Option Nat → Option Nat
  | none => none
  | some b => if b = 0 then none else some (a / b)

/-- Remainder a % b; none when the divisor is zero or itself undefined. -/
def jsModOpt (a : Nat) : Option Nat → Option Nat
  | none => none
  | some b => if b = 0 then none else some (a % b)

/-- Subtraction lifted to possibly-undefined operands. -/
def jsSubOpt : Option Nat → Option Nat → Option Nat
  | some a, some b => some (a - b)
  | _, _ => none

/-- Statistics function getTableDistributionStats of the source. -/
def getTableDistributionStats (totalUsers cap : Nat) : DistributionStats :=
  let minTables := jsCeilDiv totalUsers cap
  let perfectDistribution := jsFloorDivOpt totalUsers minTables
  let tablesWithExtra := jsModOpt totalUsers minTables
  { totalTables := minTables
    averagePeoplePerTable := perfectDistribution
    tablesWithExtraPerson := tablesWithExtra
    tablesWithNormalCount := jsSubOpt minTables tablesWithExtra }

/-- Store operation issued by the session-exit hook: delete the table
document with a given id, or overwrite a table document. -/
inductive StoreOp where
  | deleteTable : String → StoreOp
  | setTable : Table → StoreOp

/-- Effect of one store operation on the tables collection: deleteDoc
removes the document keyed by the id, setDoc replaces it (or creates it). -/
def applyStoreOp (docs : List Table) : StoreOp → List Table
  | .deleteTable tid => docs.filter fun t => decide (¬ t.id = tid)
  | .setTable t =>
    if docs.any fun d => d.id == t.id then
      docs.map fun d => if d.id = t.id then t else d
    else
      docs ++ [t]

/-- Pure decision part of removeUserFromTable in AuthContext.js: find the
first table containing the departing user and choose delete-if-empty or
write-back-reduced-members; none when the user is seated nowhere. -/
def removeUserPlan (tables : List Table) (userId : String) : Option StoreOp :=
  match tables.find? (fun t => t.members.any fun m => m.id == some userId) with
  | none => none
  | some userTable =>
    let updatedMembers := userTable.members.filter fun m => decide (¬ m.id = some userId)
    if updatedMembers.length = 0 then some (.deleteTable userTable.id)
    else some (.setTable { userTable with members := updatedMembers })

/-- Session-exit hook removeUserFromTable: the chosen store operation is
attempted against a store that may fail, and every failure is swallowed
by the try/catch, leaving the collection as it was. The function is total
and never propagates an error. -/
def removeUserFromTable (store : StoreOp → List Table → Except String (List Table))
    (tables : List Table) (userId : String) : List Table :=
  match removeUserPlan tables userId with
  | none => tables
  | some op =>
    match store op tables with
    | .ok docs => docs
    | .error _ => tables

/-- Store behaviour in which every operation succeeds with its documented
effect. -/
def honestStore : StoreOp → List Table → Except String (List Table) :=
  fun op docs => .ok (applyStoreOp docs op)

/-- Logout flow of AuthContext.js restricted to its table-cleanup
content: run the session-exit hook for the current user (if any), then
sign out. The Bool component records that the sign-out step is reached;
because removeUserFromTable swallows its failures, it always is. -/
def logout (store : StoreOp → List Table → Except String (List Table))
    (currentUser : Option String) (tables : List Table) : List Table × Bool :=
  match currentUser with
  | some uid => (removeUserFromTable store tables uid, true)
  | none => (tables, true)

/-- Sample user with a given id and no other attributes (concrete inputs
for the scenario checks). -/
def sampleUser (s : String) : User :=
  { id := some s, displayName := none, name := none, fullName := none,
    photoURL := none, gender := none, preferences := none, location := none }

/-- Sample user with a location. -/
def sampleUserAt (s : String) (lat lng : ℚ) : User :=
  { sampleUser s with location := some ⟨lat, lng⟩ }

/-- Sample user whose record is missing its id (malformed record). -/
def userNoId : User :=
  { sampleUser "" with id := none }

/-- Sample member snapshot with a given id. -/
def sampleMember (s : String) : Member :=
  { id := some s, name := none, fullName := none, photoURL := none,
    gender := none, preferences := none }

/-! Helper lemmas: decimal rendering. -/

lemma natDecimalFuel_stable :
    ∀ fuel, ∀ n, n < fuel → natDecimalFuel fuel n = natDecimalFuel (n + 1) n := by
  intro fuel
  induction fuel using Nat.strong_induction_on with
  | _ fuel ih =>
    intro n hn
    match fuel, hn with
    | f + 1, hn =>
      by_cases h10 : n < 10
      · simp [natDecimalFuel, h10]
      · have hnf : n ≤ f := Nat.lt_succ_iff.mp hn
        have h10' : 10 ≤ n := Nat.le_of_not_lt h10
        have hdiv : n / 10 < n := Nat.div_lt_self (by omega) (by omega)
        simp only [natDecimalFuel, if_neg h10]
        have e1 : natDecimalFuel f (n / 10) = natDecimalFuel (n / 10 + 1) (n / 10) :=
          ih f (Nat.lt_succ_self f) (n / 10) (by omega)
        have e2 : natDecimalFuel n (n / 10) = natDecimalFuel (n / 10 + 1) (n / 10) :=
          ih n hn (n / 10) hdiv
        rw [e1, e2]

lemma natDecimalFuel_ne_nil (n : Nat) : natDecimalFuel (n + 1) n ≠ [] := by
  by_cases h10 : n < 10 <;> simp [natDecimalFuel, h10]

lemma digitChar_inj_lt :
    ∀ a, a < 10 → ∀ b, b < 10 → Nat.digitChar a = Nat.digitChar b → a = b := by
  decide

lemma natDecimalFuel_inj :
    ∀ m, ∀ n, natDecimalFuel (m + 1) m = natDecimalFuel (n + 1) n → m = n := by
  intro m
  induction m using Nat.strong_induction_on with
  | _ m ih =>
    intro n h
    simp only [natDecimalFuel] at h
    by_cases hm : m < 10 <;> by_cases hn : n < 10
    · rw [if_pos hm, if_pos hn] at h
      exact digitChar_inj_lt m hm n hn (List.singleton_injective h)
    · rw [if_pos hm, if_neg hn] at h
      have hne := natDecimalFuel_ne_nil (n / 10)
      have hst : natDecimalFuel n (n / 10) = natDecimalFuel (n / 10 + 1) (n / 10) :=
        natDecimalFuel_stable n (n / 10) (Nat.div_lt_self (by omega) (by omega))
      rw [hst] at h
      have hlen := congrArg List.length h
      simp only [List.length_singleton, List.length_append, List.length_cons] at hlen
      have hnil : natDecimalFuel (n / 10 + 1) (n / 10) = [] :=
        List.eq_nil_of_length_eq_zero (by omega)
      exact absurd hnil hne
    · rw [if_neg hm, if_pos hn] at h
      have hne := natDecimalFuel_ne_nil (m / 10)
      have hst : natDecimalFuel m (m / 10) = natDecimalFuel (m / 10 + 1) (m / 10) :=
        natDecimalFuel_stable m (m / 10) (Nat.div_lt_self (by omega) (by omega))
      rw [hst] at h
      have hlen := congrArg List.length h
      simp only [List.length_singleton, List.length_append, List.length_cons] at hlen
      have hnil : natDecimalFuel (m / 10 + 1) (m / 10) = [] :=
        List.eq_nil_of_length_eq_zero (by omega)
      exact absurd hnil hne
    · rw [if_neg hm, if_neg hn] at h
      have hstm : natDecimalFuel m (m / 10) = natDecimalFuel (m / 10 + 1) (m / 10) :=
        natDecimalFuel_stable m (m / 10) (Nat.div_lt_self (by omega) (by omega))
      have hstn : natDecimalFuel n (n / 10) = natDecimalFuel (n / 10 + 1) (n / 10) :=
        natDecimalFuel_stable n (n / 10) (Nat.div_lt_self (by omega) (by omega))
      rw [hstm, hstn] at h
      have hrev := congrArg List.reverse h
      simp only [List.reverse_append, List.reverse_cons, List.reverse_nil,
        List.nil_append, List.cons_append, List.singleton_append] at hrev
      have hhead : Nat.digitChar (m % 10) = Nat.digitChar (n % 10) :=
        (List.cons_eq_cons.mp hrev).1
      have htail :
          (natDecimalFuel (m / 10 + 1) (m / 10)).reverse
            = (natDecimalFuel (n / 10 + 1) (n / 10)).reverse :=
        (List.cons_eq_cons.mp hrev).2
      have hmod : m % 10 = n % 10 :=
        digitChar_inj_lt _ (Nat.mod_lt _ (by omega)) _ (Nat.mod_lt _ (by omega)) hhead
      have hdivs : m / 10 = n / 10 := by
        apply ih (m / 10) (Nat.div_lt_self (by omega) (by omega))
        exact List.reverse_injective htail
      omega

lemma natToString_data_inj {m n : Nat}
    (h : (natToString m).data = (natToString n).data) : m = n := by
  apply natDecimalFuel_inj
  simpa [natToString] using h

lemma tableIdFor_inj {j k : Nat} (h : tableIdFor j = tableIdFor k) : j = k := by
  have hdata : (tableIdFor j).data = (tableIdFor k).data := by rw [h]
  simp only [tableIdFor, String.data_append] at hdata
  exact natToString_data_inj (List.append_cancel_left hdata)

/-! Helper lemmas: findIndex, modifyAt, set decomposition, swap. -/

lemma findIndex_some {p : α → Bool} :
    ∀ {l : List α} {i : Nat}, findIndex p l = some i →
      ∃ a, l[i]? = some a ∧ p a = true ∧
        ∀ j b, j < i → l[j]? = some b → ¬ p b = true := by
  intro l
  induction l with
  | nil => intro i h; simp [findIndex] at h
  | cons a l ih =>
    intro i h
    rw [findIndex] at h
    by_cases hp : p a
    · rw [if_pos hp] at h
      obtain rfl : (0 : Nat) = i := by simpa using h
      exact ⟨a, by simp, hp, by omega⟩
    · rw [if_neg hp] at h
      match hrec : findIndex p l with
      | none => rw [hrec] at h; simp at h
      | some j =>
        rw [hrec] at h
        obtain rfl : j + 1 = i := by simpa using h
        obtain ⟨b, hb, hpb, hfirst⟩ := ih hrec
        refine ⟨b, by simpa using hb, hpb, ?_⟩
        intro j' c hj' hc
        match j' with
        | 0 => simp at hc; subst hc; simpa using hp
        | j'' + 1 =>
          exact hfirst j'' c (by omega) (by simpa using hc)

lemma findIndex_none {p : α → Bool} :
    ∀ {l : List α}, findIndex p l = none → ∀ a ∈ l, ¬ p a = true := by
  intro l
  induction l with
  | nil => simp
  | cons a l ih =>
    intro h b hb
    rw [findIndex] at h
    by_cases hp : p a
    · simp [hp] at h
    · rw [if_neg hp] at h
      rcases List.mem_cons.mp hb with rfl | hbl
      · simpa using hp
      · exact ih (by simpa using h) b hbl

lemma eq_take_cons_drop {l : List α} {i : Nat} {a : α} (h : l[i]? = some a) :
    l = l.take i ++ a :: l.drop (i + 1) := by
  obtain ⟨hi, rfl⟩ := List.getElem?_eq_some_iff.mp h
  conv_lhs => rw [← List.take_append_drop i l, List.drop_eq_getElem_cons hi]

lemma set_eq_take_cons_drop_of_getElem {l : List α} {i : Nat} {a : α} (b : α)
    (h : l[i]? = some a) :
    l.set i b = l.take i ++ b :: l.drop (i + 1) :=
  List.set_eq_take_cons_drop b (List.getElem?_eq_some_iff.mp h).1

lemma length_modifyAt (l : List α) (i : Nat) (f : α → α) :
    (modifyAt l i f).length = l.length := by
  rw [modifyAt]
  match h : l[i]? with
  | some a => simp
  | none => simp

lemma modifyAt_getElem_self {l : List α} {i : Nat} {a : α} (f : α → α)
    (h : l[i]? = some a) :
    (modifyAt l i f)[i]? = some (f a) := by
  rw [modifyAt, h]
  exact List.getElem?_set_eq_of_lt (f a) (List.getElem?_eq_some_iff.mp h).1

lemma modifyAt_getElem_ne (l : List α) {i j : Nat} (f : α → α) (h : i ≠ j) :
    (modifyAt l i f)[j]? = l[j]? := by
  rw [modifyAt]
  match hi : l[i]? with
  | some a => exact List.getElem?_set_ne h
  | none => rfl

lemma count_set_of_getElem [DecidableEq α] :
    ∀ (l : List α) (i : Nat) (a b x : α), l[i]? = some a →
      (l.set i b).count x + (if a = x then 1 else 0)
        = l.count x + (if b = x then 1 else 0) := by
  intro l
  induction l with
  | nil => intro i a b x h; simp at h
  | cons c l ih =>
    intro i a b x h
    match i with
    | 0 =>
      simp only [List.getElem?_cons_zero, Option.some.injEq] at h
      subst h
      simp only [List.set_cons_zero, List.count_cons]
      split_ifs <;> simp_all <;> omega
    | i + 1 =>
      simp only [List.getElem?_cons_succ] at h
      have := ih i a b x h
      simp only [List.set_cons_succ, List.count_cons]
      split_ifs <;> simp_all <;> omega

lemma listSwap_perm [DecidableEq α] (l : List α) (i j : Nat) :
    List.Perm (listSwap l i j) l := by
  cases hi : l[i]? with
  | none =>
    have hsw : listSwap l i j = l := by unfold listSwap; rw [hi]
    rw [hsw]
  | some a =>
    cases hj : l[j]? with
    | none =>
      have hsw : listSwap l i j = l := by unfold listSwap; rw [hi, hj]
      rw [hsw]
    | some b =>
      have hsw : listSwap l i j = (l.set i b).set j a := by
        unfold listSwap; rw [hi, hj]
      rw [hsw, List.perm_iff_count]
      intro x
      have h1 := count_set_of_getElem l i a b x hi
      have hj2 : (l.set i b)[j]? = some b := by
        by_cases hij : i = j
        · subst hij
          exact List.getElem?_set_eq_of_lt b (List.getElem?_eq_some_iff.mp hi).1
        · rw [List.getElem?_set_ne hij]; exact hj
      have h2 := count_set_of_getElem (l.set i b) j b a x hj2
      split_ifs at h1 h2 <;> omega

/-! Helper lemmas: the target-table scan of assignRoundRobin. -/

lemma pickTableAux_eq :
    ∀ (ts : List Table) (idx minM : Nat) (acc : Option Nat),
      pickTableAux ts idx minM acc =
        match firstBelow minM ts with
        | none => acc
        | some p => some (idx + p) := by
  intro ts
  induction ts with
  | nil => intro idx minM acc; rfl
  | cons t ts ih =>
    intro idx minM acc
    rw [pickTableAux, firstBelow]
    by_cases h : t.members.length < minM
    · rw [if_pos h, if_pos h, ih]
      cases hfb : firstBelow t.members.length ts with
      | none => simp
      | some p => simp; omega
    · rw [if_neg h, if_neg h, ih]
      cases hfb : firstBelow minM ts with
      | none => simp
      | some p => simp; omega

lemma pickTable_eq_firstBelow (cap : Nat) (ts : List Table) :
    pickTable cap ts = firstBelow cap ts := by
  rw [pickTable, pickTableAux_eq]
  cases firstBelow cap ts <;> simp

lemma firstBelow_none :
    ∀ {bound : Nat} {ts : List Table}, firstBelow bound ts = none →
      ∀ t ∈ ts, bound ≤ t.members.length := by
  intro bound ts
  induction ts generalizing bound with
  | nil => simp
  | cons t ts ih =>
    intro h b hb
    rw [firstBelow] at h
    by_cases hlt : t.members.length < bound
    · rw [if_pos hlt] at h
      cases hfb : firstBelow t.members.length ts <;> rw [hfb] at h <;> simp at h
    · rw [if_neg hlt] at h
      rcases List.mem_cons.mp hb with rfl | hbl
      · omega
      · exact ih (by simpa using h) b hbl

lemma firstBelow_some :
    ∀ {bound : Nat} {ts : List Table} {p : Nat}, firstBelow bound ts = some p →
      ∃ t, ts[p]? = some t ∧ t.members.length < bound ∧
        (∀ j b, j < p → ts[j]? = some b → t.members.length < b.members.length) ∧
        (∀ b ∈ ts, t.members.length ≤ b.members.length) := by
  intro bound ts
  induction ts generalizing bound with
  | nil => intro p h; simp [firstBelow] at h
  | cons t ts ih =>
    intro p h
    rw [firstBelow] at h
    by_cases hlt : t.members.length < bound
    · rw [if_pos hlt] at h
      cases hfb : firstBelow t.members.length ts with
      | none =>
        rw [hfb] at h
        obtain rfl : (0 : Nat) = p := by simpa using h
        refine ⟨t, by simp, hlt, by omega, ?_⟩
        intro b hb
        rcases List.mem_cons.mp hb with rfl | hbl
        · exact le_refl _
        · exact firstBelow_none hfb b hbl
      | some q =>
        rw [hfb] at h
        obtain rfl : q + 1 = p := by simpa using h
        obtain ⟨c, hc, hclt, hcfirst, hcmin⟩ := ih hfb
        refine ⟨c, by simpa using hc, by omega, ?_, ?_⟩
        · intro j b hj hb
          match j with
          | 0 =>
            obtain rfl : t = b := by simpa using hb
            exact hclt
          | j + 1 =>
            exact hcfirst j b (by omega) (by simpa using hb)
        · intro b hb
          rcases List.mem_cons.mp hb with rfl | hbl
          · omega
          · exact hcmin b hbl
    · rw [if_neg hlt] at h
      cases hfb : firstBelow bound ts with
      | none => rw [hfb] at h; simp at h
      | some q =>
        rw [hfb] at h
        obtain rfl : q + 1 = p := by simpa using h
        obtain ⟨c, hc, hclt, hcfirst, hcmin⟩ := ih hfb
        refine ⟨c, by simpa using hc, hclt, ?_, ?_⟩
        · intro j b hj hb
          match j with
          | 0 =>
            obtain rfl : t = b := by simpa using hb
            omega
          | j + 1 =>
            exact hcfirst j b (by omega) (by simpa using hb)
        · intro b hb
          rcases List.mem_cons.mp hb with rfl | hbl
          · omega
          · exact hcmin b hbl

lemma pickTable_some {cap : Nat} {ts : List Table} {p : Nat}
    (h : pickTable cap ts = some p) :
    ∃ t, ts[p]? = some t ∧ t.members.length < cap ∧
      (∀ j b, j < p → ts[j]? = some b → t.members.length < b.members.length) ∧
      (∀ b ∈ ts, t.members.length ≤ b.members.length) :=
  firstBelow_some (pickTable_eq_firstBelow cap ts ▸ h)

lemma pickTable_none {cap : Nat} {ts : List Table}
    (h : pickTable cap ts = none) : ∀ t ∈ ts, cap ≤ t.members.length :=
  firstBelow_none (pickTable_eq_firstBelow cap ts ▸ h)

/-! Helper lemmas: structure of one seating step. -/

lemma rrStep_eq_set {cap : Nat} {ts : List Table} {p : Nat} (u : User)
    (h : pickTable cap ts = some p) :
    ∃ t, ts[p]? = some t ∧ t.members.length < cap ∧
      rrStep cap ts u = ts.set p { t with members := t.members ++ [memberOfUser u] } := by
  obtain ⟨t, hp, hlt, _, _⟩ := pickTable_some h
  refine ⟨t, hp, hlt, ?_⟩
  rw [rrStep]
  simp only [h, hp]
  rw [if_neg (by omega)]

lemma rrStep_eq_append {cap : Nat} {ts : List Table} (u : User)
    (h : pickTable cap ts = none) :
    rrStep cap ts u = ts ++ [newTable (ts.length + 1) [memberOfUser u]] := by
  rw [rrStep, h]

/-! Helper lemmas: seated ids through the round-robin loop. -/

lemma allMemberIds_append (A B : List Table) :
    allMemberIds (A ++ B) = allMemberIds A ++ allMemberIds B := by
  simp [allMemberIds]

lemma memberIds_mem_allMemberIds {ts : List Table} {t : Table} (ht : t ∈ ts)
    {x : Option String} (hx : x ∈ memberIds t) : x ∈ allMemberIds ts := by
  rw [allMemberIds, List.mem_flatMap]
  exact ⟨t, ht, by simpa [memberIds] using hx⟩

lemma allMemberIds_rrStep (cap : Nat) (ts : List Table) (u : User) :
    List.Perm (allMemberIds (rrStep cap ts u)) (u.id :: allMemberIds ts) := by
  cases hpick : pickTable cap ts with
  | none =>
    rw [rrStep_eq_append u hpick, allMemberIds_append]
    have : allMemberIds [newTable (ts.length + 1) [memberOfUser u]] = [u.id] := by
      simp [allMemberIds, newTable, memberOfUser]
    rw [this]
    exact List.perm_append_singleton _ _
  | some p =>
    obtain ⟨t, hp, hlt, heq⟩ := rrStep_eq_set u hpick
    rw [List.perm_iff_count]
    intro x
    have hts : ts = ts.take p ++ t :: ts.drop (p + 1) := eq_take_cons_drop hp
    rw [heq, set_eq_take_cons_drop_of_getElem _ hp]
    conv_rhs => rw [hts]
    simp [allMemberIds, List.count_append, List.count_cons, memberOfUser]
    split_ifs <;> omega

lemma allMemberIds_assignRoundRobin (us : List User) (ts : List Table) (cap : Nat) :
    List.Perm (allMemberIds (assignRoundRobin us ts cap))
      (allMemberIds ts ++ us.map (·.id)) := by
  induction us generalizing ts with
  | nil => simp [assignRoundRobin]
  | cons u us ih =>
    have h1 : assignRoundRobin (u :: us) ts cap
        = assignRoundRobin us (rrStep cap ts u) cap := rfl
    rw [h1]
    refine (ih (rrStep cap ts u)).trans ?_
    refine ((allMemberIds_rrStep cap ts u).append_right _).trans ?_
    have h2 : List.Perm (u.id :: allMemberIds ts) (allMemberIds ts ++ [u.id]) :=
      (List.perm_append_singleton _ _).symm
    refine (h2.append_right _).trans ?_
    rw [List.append_assoc]
    simp

/-! Helper lemmas: capacity through the round-robin loop. -/

lemma rrStep_capacity {cap : Nat} (hcap : 1 ≤ cap) {ts : List Table}
    (h : ∀ t ∈ ts, t.members.length ≤ cap) (u : User) :
    ∀ t ∈ rrStep cap ts u, t.members.length ≤ cap := by
  cases hpick : pickTable cap ts with
  | none =>
    rw [rrStep_eq_append u hpick]
    intro t ht
    rcases List.mem_append.mp ht with h1 | h2
    · exact h t h1
    · have : t = newTable (ts.length + 1) [memberOfUser u] := by simpa using h2
      subst this
      simpa [newTable] using hcap
  | some p =>
    obtain ⟨t0, hp, hlt, heq⟩ := rrStep_eq_set u hpick
    rw [heq]
    intro t ht
    rcases List.mem_or_eq_of_mem_set ht with h1 | rfl
    · exact h t h1
    · simp only [List.length_append, List.length_singleton]
      omega

lemma assignRoundRobin_capacity {cap : Nat} (hcap : 1 ≤ cap)
    (us : List User) {ts : List Table}
    (h : ∀ t ∈ ts, t.members.length ≤ cap) :
    ∀ t ∈ assignRoundRobin us ts cap, t.members.length ≤ cap := by
  induction us generalizing ts with
  | nil => simpa [assignRoundRobin] using h
  | cons u us ih =>
    have h1 : assignRoundRobin (u :: us) ts cap
        = assignRoundRobin us (rrStep cap ts u) cap := rfl
    rw [h1]
    exact ih (rrStep_capacity hcap h u)

/-! Helper lemmas: no double seating through the round-robin loop. -/

lemma rrStep_disjoint {cap : Nat} {ts : List Table} {u : User}
    (hu : u.id ∉ allMemberIds ts)
    (hpw : ts.Pairwise disjointTables) :
    (rrStep cap ts u).Pairwise disjointTables := by
  cases hpick : pickTable cap ts with
  | none =>
    rw [rrStep_eq_append u hpick, List.pairwise_append]
    refine ⟨hpw, by simp, ?_⟩
    intro a ha b hb
    have hb' : b = newTable (ts.length + 1) [memberOfUser u] := by simpa using hb
    subst hb'
    intro x hxa hxb
    have hxu : x = u.id := by
      simpa [memberIds, newTable, memberOfUser] using hxb
    exact hu (hxu ▸ memberIds_mem_allMemberIds ha hxa)
  | some p =>
    obtain ⟨t, hp, hlt, heq⟩ := rrStep_eq_set u hpick
    have hts : ts = ts.take p ++ t :: ts.drop (p + 1) := eq_take_cons_drop hp
    have hmemIds : memberIds { t with members := t.members ++ [memberOfUser u] }
        = memberIds t ++ [u.id] := by
      simp [memberIds, memberOfUser]
    rw [heq, set_eq_take_cons_drop_of_getElem _ hp]
    rw [hts, List.pairwise_append, List.pairwise_cons] at hpw
    obtain ⟨hA, ⟨htB, hBB⟩, hAB⟩ := hpw
    rw [List.pairwise_append, List.pairwise_cons]
    refine ⟨hA, ⟨?_, hBB⟩, ?_⟩
    · intro b hb x hxt hxb
      rw [hmemIds] at hxt
      rcases List.mem_append.mp hxt with hxt | hxu
      · exact htB b hb x hxt hxb
      · have hxu : x = u.id := by simpa using hxu
        have hbts : b ∈ ts := hts ▸ List.mem_append_right _ (List.mem_cons_of_mem _ hb)
        exact hu (hxu ▸ memberIds_mem_allMemberIds hbts hxb)
    · intro a ha c hc x hxa hxc
      have hats : a ∈ ts := hts ▸ List.mem_append_left _ ha
      rcases List.mem_cons.mp hc with rfl | hcB
      · rw [hmemIds] at hxc
        rcases List.mem_append.mp hxc with hxc | hxu
        · exact hAB a ha t (List.mem_cons_self _ _) x hxa hxc
        · have hxu : x = u.id := by simpa using hxu
          exact hu (hxu ▸ memberIds_mem_allMemberIds hats hxa)
      · exact hAB a ha c (List.mem_cons_of_mem _ hcB) x hxa hxc

lemma assignRoundRobin_disjoint {cap : Nat} (us : List User) {ts : List Table}
    (hnd : (us.map (·.id)).Nodup)
    (hfresh : ∀ u ∈ us, u.id ∉ allMemberIds ts)
    (hpw : ts.Pairwise disjointTables) :
    (assignRoundRobin us ts cap).Pairwise disjointTables := by
  induction us generalizing ts with
  | nil => simpa [assignRoundRobin] using hpw
  | cons u us ih =>
    have h1 : assignRoundRobin (u :: us) ts cap
        = assignRoundRobin us (rrStep cap ts u) cap := rfl
    rw [h1]
    rw [List.map_cons, List.nodup_cons] at hnd
    refine ih hnd.2 ?_ (rrStep_disjoint (hfresh u (List.mem_cons_self _ _)) hpw)
    intro v hv hmem
    have := (allMemberIds_rrStep cap ts u).mem_iff.mp hmem
    rcases List.mem_cons.mp this with hvu | hvts
    · exact hnd.1 (hvu ▸ List.mem_map_of_mem (·.id) hv)
    · exact hfresh v (List.mem_cons_of_mem _ hv) hvts

/-! Helper lemmas: location buckets. -/

lemma insertGroup_flatMap (gs : List (Option (ℤ × ℤ) × List User))
    (key : Option (ℤ × ℤ)) (u : User) :
    List.Perm ((insertGroup key u gs).flatMap (·.2)) (u :: gs.flatMap (·.2)) := by
  induction gs with
  | nil => simp [insertGroup]
  | cons g gs ih =>
    obtain ⟨k, us⟩ := g
    rw [insertGroup]
    by_cases hk : k = key
    · rw [if_pos hk]
      simp only [List.flatMap_cons, List.append_assoc, List.singleton_append]
      exact List.perm_middle
    · rw [if_neg hk]
      simp only [List.flatMap_cons]
      refine (ih.append_left us).trans ?_
      exact List.perm_middle

lemma locationGroups_flatMap (users : List User) :
    List.Perm ((locationGroups users).flatMap (·.2)) users := by
  suffices h : ∀ (us : List User) (gs : List (Option (ℤ × ℤ) × List User)),
      List.Perm ((us.foldl (fun gs u => insertGroup (locKey u) u gs) gs).flatMap (·.2))
        (gs.flatMap (·.2) ++ us) by
    simpa [locationGroups] using h users []
  intro us
  induction us with
  | nil => intro gs; simp
  | cons u us ih =>
    intro gs
    rw [List.foldl_cons]
    refine (ih _).trans ?_
    refine ((insertGroup_flatMap gs (locKey u) u).append_right us).trans ?_
    simpa using List.perm_middle.symm

lemma allMemberIds_buckets (cap : Nat) (gs : List (Option (ℤ × ℤ) × List User)) :
    List.Perm (allMemberIds (gs.flatMap fun g => assignRoundRobin g.2 [] cap))
      ((gs.flatMap (·.2)).map (·.id)) := by
  induction gs with
  | nil => simp [allMemberIds]
  | cons g gs ih =>
    rw [List.flatMap_cons, allMemberIds_append, List.flatMap_cons, List.map_append]
    refine List.Perm.append ?_ ih
    simpa [allMemberIds] using allMemberIds_assignRoundRobin g.2 [] cap

lemma allMemberIds_assignByLocation (us : List User) (ts : List Table) (cap : Nat) :
    List.Perm (allMemberIds (assignByLocation us ts cap))
      (allMemberIds ts ++ us.map (·.id)) := by
  rw [assignByLocation, allMemberIds_append]
  refine List.Perm.append_left _ ?_
  refine (allMemberIds_buckets cap _).trans ?_
  exact (locationGroups_flatMap us).map (·.id)

lemma assignByLocation_capacity {cap : Nat} (hcap : 1 ≤ cap)
    (us : List User) {ts : List Table}
    (h : ∀ t ∈ ts, t.members.length ≤ cap) :
    ∀ t ∈ assignByLocation us ts cap, t.members.length ≤ cap := by
  intro t ht
  rw [assignByLocation] at ht
  rcases List.mem_append.mp ht with h1 | h2
  · exact h t h1
  · obtain ⟨g, _, htg⟩ := List.mem_flatMap.mp h2
    exact assignRoundRobin_capacity hcap g.2 (by simp) t htg

lemma buckets_disjoint {cap : Nat} (gs : List (Option (ℤ × ℤ) × List User))
    (hnd : ((gs.flatMap (·.2)).map (·.id)).Nodup) :
    (gs.flatMap fun g => assignRoundRobin g.2 [] cap).Pairwise disjointTables := by
  induction gs with
  | nil => simp
  | cons g gs ih =>
    rw [List.flatMap_cons, List.map_append, List.nodup_append] at hnd
    obtain ⟨hnd1, hnd2, hdisj⟩ := hnd
    rw [List.flatMap_cons, List.pairwise_append]
    refine ⟨?_, ih hnd2, ?_⟩
    · exact assignRoundRobin_disjoint g.2 hnd1 (by simp [allMemberIds]) (by simp)
    · intro a ha b hb x hxa hxb
      have hxa' : x ∈ (g.2).map (·.id) := by
        have hmem := memberIds_mem_allMemberIds ha hxa
        have := (allMemberIds_assignRoundRobin g.2 [] cap).mem_iff.mp hmem
        simpa [allMemberIds] using this
      have hxb' : x ∈ (gs.flatMap (·.2)).map (·.id) := by
        have hmem := memberIds_mem_allMemberIds hb hxb
        exact (allMemberIds_buckets cap gs).mem_iff.mp hmem
      exact hdisj hxa' hxb'

lemma assignByLocation_disjoint {cap : Nat} (us : List User) (ts : List Table)
    (hnd : (us.map (·.id)).Nodup)
    (hfresh : ∀ u ∈ us, u.id ∉ allMemberIds ts)
    (hpw : ts.Pairwise disjointTables) :
    (assignByLocation us ts cap).Pairwise disjointTables := by
  have hidsperm :
      List.Perm ((locationGroups us).flatMap (·.2)) us := locationGroups_flatMap us
  have hmapperm :
      List.Perm (((locationGroups us).flatMap (·.2)).map (·.id)) (us.map (·.id)) :=
    hidsperm.map (·.id)
  rw [assignByLocation, List.pairwise_append]
  refine ⟨hpw, buckets_disjoint _ (hmapperm.nodup_iff.mpr hnd), ?_⟩
  intro a ha b hb x hxa hxb
  have hxb' : x ∈ us.map (·.id) := by
    have hmem := memberIds_mem_allMemberIds hb hxb
    exact hmapperm.mem_iff.mp ((allMemberIds_buckets cap _).mem_iff.mp hmem)
  obtain ⟨v, hv, rfl⟩ := List.mem_map.mp hxb'
  exact hfresh v hv (memberIds_mem_allMemberIds ha hxa)

/-! Helper lemmas: the assignUsersToTables entry point. -/

lemma mem_unassigned {users : List User} {ts : List Table} {u : User} :
    u ∈ users.filter (fun u => decide (u.id ∉ allMemberIds ts)) ↔
      u ∈ users ∧ u.id ∉ allMemberIds ts := by
  rw [List.mem_filter]
  simp

lemma allMemberIds_assign (users : List User) (settings : Settings)
    (ts : List Table) :
    List.Perm (allMemberIds (assignUsersToTables users settings ts))
      (allMemberIds ts
        ++ (users.filter fun u => decide (u.id ∉ allMemberIds ts)).map (·.id)) := by
  rw [assignUsersToTables]
  cases settings.considerLocation with
  | true => simpa using allMemberIds_assignByLocation _ ts settings.maxPeoplePerTable
  | false => simpa using allMemberIds_assignRoundRobin _ ts settings.maxPeoplePerTable

lemma assign_seats_all (users : List User) (settings : Settings) (ts : List Table) :
    ∀ u ∈ users, u.id ∈ allMemberIds (assignUsersToTables users settings ts) := by
  intro u hu
  rw [(allMemberIds_assign users settings ts).mem_iff]
  by_cases hin : u.id ∈ allMemberIds ts
  · exact List.mem_append_left _ hin
  · refine List.mem_append_right _ ?_
    exact List.mem_map_of_mem (·.id) (mem_unassigned.mpr ⟨hu, hin⟩)

/-! Helper lemmas: shuffle. -/

lemma fisherYatesAux_perm (rand : Nat → Nat) :
    ∀ (i : Nat) (l : List Member), List.Perm (fisherYatesAux rand i l) l := by
  intro i
  induction i with
  | zero => intro l; exact List.Perm.refl l
  | succ i ih =>
    intro l
    rw [fisherYatesAux]
    exact (ih _).trans (listSwap_perm l (i + 1) _)

lemma fisherYates_perm (rand : Nat → Nat) (l : List Member) :
    List.Perm (fisherYates rand l) l :=
  fisherYatesAux_perm rand (l.length - 1) l

lemma chunkAux_flatten :
    ∀ (fuel cap : Nat) (l : List Member), l.length ≤ fuel → 1 ≤ cap →
      (chunkAux fuel cap l).flatten = l := by
  intro fuel
  induction fuel with
  | zero =>
    intro cap l hl _
    match l with
    | [] => rfl
    | a :: l => simp at hl
  | succ fuel ih =>
    intro cap l hl hc
    match l with
    | [] => rfl
    | a :: l' =>
      rw [chunkAux, if_neg (by omega), List.flatten_cons]
      rw [ih cap _ (by simp [List.length_drop, List.length_cons] at hl ⊢; omega) hc]
      exact List.take_append_drop cap (a :: l')

lemma chunkAux_ne_nil {fuel cap : Nat} {l : List Member}
    (hne : l ≠ []) (hl : l.length ≤ fuel) (hc : 1 ≤ cap) :
    chunkAux fuel cap l ≠ [] := by
  match fuel, l with
  | _, [] => exact absurd rfl hne
  | 0, a :: l' => simp at hl
  | fuel + 1, a :: l' =>
    rw [chunkAux, if_neg (by omega)]
    simp

lemma chunkAux_length_le :
    ∀ (fuel cap : Nat) (l : List Member), l.length ≤ fuel → 1 ≤ cap →
      ∀ c ∈ chunkAux fuel cap l, 1 ≤ c.length ∧ c.length ≤ cap := by
  intro fuel
  induction fuel with
  | zero =>
    intro cap l hl _ c hb
    match l with
    | [] => simp [chunkAux] at hb
    | a :: l => simp at hl
  | succ fuel ih =>
    intro cap l hl hc c hb
    match l with
    | [] => simp [chunkAux] at hb
    | a :: l' =>
      rw [chunkAux, if_neg (by omega)] at hb
      rcases List.mem_cons.mp hb with rfl | hb'
      · constructor
        · simp [List.length_take, List.length_cons]; omega
        · simp [List.length_take]
      · exact ih cap _ (by simp [List.length_drop, List.length_cons] at hl ⊢; omega) hc c hb'

lemma chunkAux_dropLast_length :
    ∀ (fuel cap : Nat) (l : List Member), l.length ≤ fuel → 1 ≤ cap →
      ∀ c ∈ (chunkAux fuel cap l).dropLast, c.length = cap := by
  intro fuel
  induction fuel with
  | zero =>
    intro cap l hl _ c hb
    match l with
    | [] => simp [chunkAux] at hb
    | a :: l => simp at hl
  | succ fuel ih =>
    intro cap l hl hc c hb
    match l with
    | [] => simp [chunkAux] at hb
    | a :: l' =>
      rw [chunkAux, if_neg (by omega)] at hb
      by_cases hdrop : (a :: l').drop cap = []
      · rw [hdrop] at hb
        simp [chunkAux] at hb
      · have hrest : chunkAux fuel cap ((a :: l').drop cap) ≠ [] :=
          chunkAux_ne_nil hdrop (by simp [List.length_drop, List.length_cons] at hl ⊢; omega) hc
        obtain ⟨y, ys, hys⟩ := List.exists_cons_of_ne_nil hrest
        rw [hys] at hb
        simp only [List.dropLast_cons₂] at hb
        rcases List.mem_cons.mp hb with rfl | hb'
        · have hlen : cap < (a :: l').length := by
            by_contra hle
            exact hdrop (List.drop_eq_nil_of_le (by omega))
          simp only [List.length_cons] at hlen
          simp [List.length_take, List.length_cons]
          omega
        · refine ih cap _ ?_ hc c (by rw [hys]; exact hb')
          simp [List.length_drop, List.length_cons] at hl ⊢
          omega

lemma map_dropLast (f : α → β) : ∀ l : List α, (l.map f).dropLast = l.dropLast.map f := by
  intro l
  induction l with
  | nil => rfl
  | cons a l ih =>
    match l with
    | [] => rfl
    | b :: l' => simpa [List.dropLast_cons₂] using ih

lemma enumFrom_newTable_members :
    ∀ (cs : List (List Member)) (n : Nat),
      ((cs.enumFrom n).map fun c => newTable (c.1 + 1) c.2).map (·.members) = cs := by
  intro cs
  induction cs with
  | nil => intro n; rfl
  | cons c cs ih =>
    intro n
    simp only [List.enumFrom_cons, List.map_cons]
    rw [ih (n + 1)]
    rfl

lemma shuffleTables_memberLists (tables : List Table) (cap : Nat) (rand : Nat → Nat) :
    (shuffleTables tables cap rand).map (·.members)
      = chunkMembers cap (fisherYates rand (tables.flatMap (·.members))) := by
  rw [shuffleTables]
  exact enumFrom_newTable_members _ 0

lemma shuffleTables_members_eq (tables : List Table) (cap : Nat) (rand : Nat → Nat) :
    (shuffleTables tables cap rand).flatMap (·.members)
      = (chunkMembers cap (fisherYates rand (tables.flatMap (·.members)))).flatten := by
  rw [← shuffleTables_memberLists tables cap rand, List.flatMap_def]

/-! Helper lemmas: ids and names of freshly created tables. -/

lemma rrStep_headers (cap : Nat) (ts : List Table) (u : User) :
    ((rrStep cap ts u).map fun t => (t.id, t.name)) = (ts.map fun t => (t.id, t.name))
    ∨ ((rrStep cap ts u).map fun t => (t.id, t.name))
        = (ts.map fun t => (t.id, t.name))
          ++ [(tableIdFor (ts.length + 1), tableNameFor (ts.length + 1))] := by
  cases hpick : pickTable cap ts with
  | none =>
    right
    rw [rrStep_eq_append u hpick]
    simp [newTable]
  | some p =>
    left
    obtain ⟨t, hp, _, heq⟩ := rrStep_eq_set u hpick
    rw [heq, set_eq_take_cons_drop_of_getElem _ hp]
    conv_rhs => rw [eq_take_cons_drop hp]
    simp

lemma assignRoundRobin_headers (us : List User) (ts : List Table) (cap : Nat) :
    ∃ k, ((assignRoundRobin us ts cap).map fun t => (t.id, t.name))
      = (ts.map fun t => (t.id, t.name))
        ++ (List.range' (ts.length + 1) k).map fun j => (tableIdFor j, tableNameFor j) := by
  induction us generalizing ts with
  | nil => exact ⟨0, by simp [assignRoundRobin]⟩
  | cons u us ih =>
    have h1 : assignRoundRobin (u :: us) ts cap
        = assignRoundRobin us (rrStep cap ts u) cap := rfl
    rw [h1]
    obtain ⟨k, hk⟩ := ih (rrStep cap ts u)
    rcases rrStep_headers cap ts u with hsame | happ
    · have hlen : (rrStep cap ts u).length = ts.length := by
        have := congrArg List.length hsame
        simpa using this
      exact ⟨k, by rw [hk, hsame, hlen]⟩
    · have hlen : (rrStep cap ts u).length = ts.length + 1 := by
        have := congrArg List.length happ
        simpa using this
      refine ⟨k + 1, ?_⟩
      rw [hk, happ, hlen, List.append_assoc, List.range'_succ, List.map_cons,
        List.singleton_append]

lemma assignRoundRobin_ids_nodup (us : List User) (ts : List Table) (cap : Nat)
    (hnd : (ts.map (·.id)).Nodup)
    (hnotable : ∀ t ∈ ts, ∀ k, t.id ≠ tableIdFor k) :
    ((assignRoundRobin us ts cap).map (·.id)).Nodup := by
  obtain ⟨k, hk⟩ := assignRoundRobin_headers us ts cap
  have hids : (assignRoundRobin us ts cap).map (·.id)
      = ts.map (·.id) ++ (List.range' (ts.length + 1) k).map tableIdFor := by
    have hfst := congrArg (List.map Prod.fst) hk
    simpa [List.map_map, Function.comp] using hfst
  rw [hids, List.nodup_append]
  refine ⟨hnd, ?_, ?_⟩
  · have hr : (List.range' (ts.length + 1) k).Nodup := List.nodup_range' _ _
    exact hr.map fun a b h => tableIdFor_inj h
  · intro x hx1 hx2
    obtain ⟨j, _, rfl⟩ := List.mem_map.mp hx2
    obtain ⟨t, ht, htid⟩ := List.mem_map.mp hx1
    exact hnotable t ht j htid

/-! Helper lemmas: first match of find? and store-operation effects. -/

lemma find?_first {p : α → Bool} :
    ∀ {l : List α} {a : α}, l.find? p = some a →
      ∃ i : Nat, l[i]? = some a ∧ p a = true ∧
        ∀ j b, j < i → l[j]? = some b → ¬ p b = true := by
  intro l
  induction l with
  | nil => intro a h; simp at h
  | cons c l ih =>
    intro a h
    by_cases hp : p c
    · rw [List.find?_cons_of_pos _ hp] at h
      obtain rfl : c = a := by simpa using h
      refine ⟨0, by simp, hp, ?_⟩
      intro j b hj hb
      exact absurd hj (Nat.not_lt_zero j)
    · rw [List.find?_cons_of_neg _ hp] at h
      obtain ⟨i, hi, hpa, hfirst⟩ := ih h
      refine ⟨i + 1, by simpa using hi, hpa, ?_⟩
      intro j b hj hb
      match j with
      | 0 =>
        obtain rfl : c = b := by simpa using hb
        simpa using hp
      | j + 1 => exact hfirst j b (by omega) (by simpa using hb)

lemma filter_ne_eq_eraseIdx {ts : List Table} {i : Nat} {t : Table}
    (hnd : (ts.map (·.id)).Nodup) (hi : ts[i]? = some t) :
    (ts.filter fun b => decide (¬ b.id = t.id)) = ts.eraseIdx i := by
  have hts : ts = ts.take i ++ t :: ts.drop (i + 1) := eq_take_cons_drop hi
  rw [List.eraseIdx_eq_take_drop_succ]
  conv_lhs => rw [hts]
  rw [List.filter_append]
  have hnd' := hnd
  rw [hts, List.map_append, List.map_cons, List.nodup_append] at hnd'
  obtain ⟨hndA, hndB, hdisj⟩ := hnd'
  rw [List.nodup_cons] at hndB
  have hA : ((ts.take i).filter fun b => decide (¬ b.id = t.id)) = ts.take i := by
    rw [List.filter_eq_self]
    intro b hb
    simp only [decide_eq_true_eq]
    intro hbid
    exact hdisj (hbid ▸ List.mem_map_of_mem (·.id) hb) (List.mem_cons_self _ _)
  have hB : ((t :: ts.drop (i + 1)).filter fun b => decide (¬ b.id = t.id))
      = ts.drop (i + 1) := by
    rw [List.filter_cons, if_neg (by simp)]
    rw [List.filter_eq_self]
    intro b hb
    simp only [decide_eq_true_eq]
    intro hbid
    exact hndB.1 (hbid ▸ List.mem_map_of_mem (·.id) hb)
  rw [hA, hB]

lemma map_replace_eq_set {ts : List Table} {i : Nat} {t : Table} (t' : Table)
    (hnd : (ts.map (·.id)).Nodup) (hi : ts[i]? = some t) :
    (ts.map fun d => if d.id = t.id then t' else d) = ts.set i t' := by
  have hts : ts = ts.take i ++ t :: ts.drop (i + 1) := eq_take_cons_drop hi
  rw [set_eq_take_cons_drop_of_getElem t' hi]
  conv_lhs => rw [hts]
  rw [List.map_append, List.map_cons, if_pos rfl]
  have hnd' := hnd
  rw [hts, List.map_append, List.map_cons, List.nodup_append] at hnd'
  obtain ⟨hndA, hndB, hdisj⟩ := hnd'
  rw [List.nodup_cons] at hndB
  have hA : ((ts.take i).map fun d => if d.id = t.id then t' else d) = ts.take i := by
    have : ∀ b ∈ ts.take i, (if b.id = t.id then t' else b) = id b := by
      intro b hb
      rw [if_neg]
      · rfl
      · intro hbid
        exact hdisj (hbid ▸ List.mem_map_of_mem (·.id) hb) (List.mem_cons_self _ _)
    rw [List.map_congr_left this, List.map_id]
  have hB : ((ts.drop (i + 1)).map fun d => if d.id = t.id then t' else d)
      = ts.drop (i + 1) := by
    have : ∀ b ∈ ts.drop (i + 1), (if b.id = t.id then t' else b) = id b := by
      intro b hb
      rw [if_neg]
      · rfl
      · intro hbid
        exact hndB.1 (hbid ▸ List.mem_map_of_mem (·.id) hb)
    rw [List.map_congr_left this, List.map_id]
  rw [hA, hB]

lemma any_id_eq_true {ts : List Table} {i : Nat} {t : Table} {t' : Table}
    (hi : ts[i]? = some t) (hid : t'.id = t.id) :
    (ts.any fun d => d.id == t'.id) = true := by
  rw [List.any_eq_true]
  refine ⟨t, ?_, by simp [hid]⟩
  obtain ⟨hlt, rfl⟩ := List.getElem?_eq_some_iff.mp hi
  exact List.getElem_mem hlt

/-! Helper lemmas: the move operation. -/

lemma mem_modifyAt {l : List α} {i : Nat} {f : α → α} {t : α}
    (h : t ∈ modifyAt l i f) : t ∈ l ∨ ∃ a, l[i]? = some a ∧ t = f a := by
  rw [modifyAt] at h
  cases hi : l[i]? with
  | none => rw [hi] at h; exact Or.inl h
  | some a =>
    rw [hi] at h
    rcases List.mem_or_eq_of_mem_set h with h1 | rfl
    · exact Or.inl h1
    · exact Or.inr ⟨a, rfl, rfl⟩

lemma move_characterization (tables : List Table)
    (userId fromTableId toTableId : String) (cap : Nat) :
    ((moveUserBetweenTables tables userId fromTableId toTableId cap).success = false ∧
      (moveUserBetweenTables tables userId fromTableId toTableId cap).tables = tables) ∨
    ((moveUserBetweenTables tables userId fromTableId toTableId cap).success = true ∧
      ∃ fi ti tf tt ui snap,
        findIndex (fun t => t.id == fromTableId) tables = some fi ∧
        findIndex (fun t => t.id == toTableId) tables = some ti ∧
        tables[fi]? = some tf ∧ tables[ti]? = some tt ∧
        tf.id = fromTableId ∧ tt.id = toTableId ∧
        tt.members.length < cap ∧
        findIndex (fun m => m.id == some userId) tf.members = some ui ∧
        tf.members[ui]? = some snap ∧ snap.id = some userId ∧
        (moveUserBetweenTables tables userId fromTableId toTableId cap).tables
          = modifyAt
              (modifyAt tables fi fun t => { t with members := t.members.eraseIdx ui })
              ti fun t => { t with members := t.members ++ [snap] }) := by
  cases hfi : findIndex (fun t => t.id == fromTableId) tables with
  | none =>
    left
    constructor <;> simp [moveUserBetweenTables, hfi]
  | some fi =>
    cases hti : findIndex (fun t => t.id == toTableId) tables with
    | none =>
      left
      constructor <;> simp [moveUserBetweenTables, hfi, hti]
    | some ti =>
      obtain ⟨tf, htf, htfid, _⟩ := findIndex_some hfi
      obtain ⟨tt, htt, httid, _⟩ := findIndex_some hti
      by_cases hfull : cap ≤ tt.members.length
      · left
        constructor <;> simp [moveUserBetweenTables, hfi, hti, htt, hfull]
      · cases hui : findIndex (fun m => m.id == some userId) tf.members with
        | none =>
          left
          constructor <;>
            simp [moveUserBetweenTables, hfi, hti, htf, htt, hfull, hui]
        | some ui =>
          obtain ⟨snap, hsnap, hsnapid, _⟩ := findIndex_some hui
          right
          constructor
          · simp [moveUserBetweenTables, hfi, hti, htf, htt, hfull, hui]
          · refine ⟨fi, ti, tf, tt, ui, snap, rfl, rfl, htf, htt,
              by simpa using htfid, by simpa using httid, by omega, hui, hsnap,
              by simpa using hsnapid, ?_⟩
            simp [moveUserBetweenTables, hfi, hti, htf, htt, hfull, hui, hsnap]

/-! Claim theorems. -/

/-- C1: for every call to assign (assignUsersToTables), shuffle
(shuffleTables) or move (moveUserBetweenTables) whose input tables each
have at most maxPeoplePerTable members, every table of the returned table
list has member count at most maxPeoplePerTable. The capacity setting is
taken in its documented domain (an integer at least 2; the theorem needs
only 1 ≤ cap, and the source shuffle loop does not even terminate at
cap = 0). -/
theorem claim_C1_capacity_invariant (cap : Nat) (hcap : 1 ≤ cap)
    (users : List User) (cl : Bool) (tables : List Table)
    (userId fromTableId toTableId : String) (rand : Nat → Nat)
    (hin : ∀ t ∈ tables, t.members.length ≤ cap) :
    (∀ t ∈ assignUsersToTables users ⟨cap, cl⟩ tables, t.members.length ≤ cap) ∧
    (∀ t ∈ shuffleTables tables cap rand, t.members.length ≤ cap) ∧
    (∀ t ∈ (moveUserBetweenTables tables userId fromTableId toTableId cap).tables,
      t.members.length ≤ cap) := by
  refine ⟨?_, ?_, ?_⟩
  · intro t ht
    rw [assignUsersToTables] at ht
    cases cl with
    | true => exact assignByLocation_capacity hcap _ hin t (by simpa using ht)
    | false => exact assignRoundRobin_capacity hcap _ hin t (by simpa using ht)
  · intro t ht
    have hmem : t.members ∈ (shuffleTables tables cap rand).map (·.members) :=
      List.mem_map_of_mem (·.members) ht
    rw [shuffleTables_memberLists, chunkMembers] at hmem
    exact (chunkAux_length_le _ cap _ le_rfl hcap _ hmem).2
  · rcases move_characterization tables userId fromTableId toTableId cap with
      ⟨_, heq⟩ | ⟨_, fi, ti, tf, tt, ui, snap, hfi, hti, htf, htt, _, _,
        hltcap, hui, hsnap, _, heq⟩
    · rw [heq]; exact hin
    · rw [heq]
      intro t ht
      have htf_mem : tf ∈ tables := by
        obtain ⟨hlt, rfl⟩ := List.getElem?_eq_some_iff.mp htf
        exact List.getElem_mem hlt
      have hui_lt : ui < tf.members.length :=
        (List.getElem?_eq_some_iff.mp hsnap).1
      rcases mem_modifyAt ht with h1 | ⟨a, ha, rfl⟩
      · rcases mem_modifyAt h1 with h2 | ⟨b, hb, rfl⟩
        · exact hin t h2
        · obtain rfl : tf = b := by rw [htf] at hb; simpa using hb
          have hsub : List.Sublist (tf.members.eraseIdx ui) tf.members :=
            List.eraseIdx_sublist tf.members ui
          exact le_trans hsub.length_le (hin tf htf_mem)
      · by_cases hfi_ti : fi = ti
        · subst hfi_ti
          obtain rfl : tf = tt := by rw [htf] at htt; simpa using htt
          have ha' : (modifyAt tables fi
              fun t => { t with members := t.members.eraseIdx ui })[fi]?
                = some { tf with members := tf.members.eraseIdx ui } :=
            modifyAt_getElem_self _ htf
          obtain rfl : { tf with members := tf.members.eraseIdx ui } = a := by
            rw [ha'] at ha; simpa using ha
          have hlen : (tf.members.eraseIdx ui).length = tf.members.length - 1 :=
            List.length_eraseIdx_of_lt hui_lt
          simp only [List.length_append, List.length_singleton]
          simp only [hlen]
          omega
        · have ha' : (modifyAt tables fi
              fun t => { t with members := t.members.eraseIdx ui })[ti]?
                = tables[ti]? := modifyAt_getElem_ne _ _ hfi_ti
          obtain rfl : tt = a := by rw [ha', htt] at ha; simpa using ha
          simp only [List.length_append, List.length_singleton]
          omega

/-- C1 witness: the capacity invariant at a concrete call with cap = 2,
one seated member and one incoming user. -/
theorem claim_C1_capacity_invariant_witness :
    (∀ t ∈ assignUsersToTables [sampleUser "a"] ⟨2, false⟩
        [⟨"t1", "T1", [sampleMember "x"]⟩], t.members.length ≤ 2) ∧
    (∀ t ∈ shuffleTables [⟨"t1", "T1", [sampleMember "x"]⟩] 2 (fun _ => 0),
      t.members.length ≤ 2) ∧
    (∀ t ∈ (moveUserBetweenTables [⟨"t1", "T1", [sampleMember "x"]⟩]
        "x" "t1" "t1" 2).tables, t.members.length ≤ 2) :=
  claim_C1_capacity_invariant 2 (by decide) [sampleUser "a"] false
    [⟨"t1", "T1", [sampleMember "x"]⟩] "x" "t1" "t1" (fun _ => 0) (by decide)

/-- C2: for every call to assign whose users list has pairwise-distinct ids
and whose existingTables seat no id at two tables, no user id appears in
the member list of more than one table of the output, in both the
considerLocation = false and considerLocation = true modes. -/
theorem claim_C2_no_duplicate_seating (users : List User) (settings : Settings)
    (existingTables : List Table)
    (hnd : (users.map (·.id)).Nodup)
    (hpw : noDoubleSeating existingTables) :
    noDoubleSeating (assignUsersToTables users settings existingTables) := by
  rw [noDoubleSeating] at hpw ⊢
  rw [assignUsersToTables]
  have hnd' : ((users.filter fun u =>
      decide (u.id ∉ allMemberIds existingTables)).map (·.id)).Nodup :=
    hnd.sublist ((List.filter_sublist users).map (·.id))
  have hfresh : ∀ u ∈ users.filter fun u =>
      decide (u.id ∉ allMemberIds existingTables),
      u.id ∉ allMemberIds existingTables := fun u hu => (mem_unassigned.mp hu).2
  cases hc : settings.considerLocation with
  | true => simpa using assignByLocation_disjoint _ existingTables hnd' hfresh hpw
  | false => simpa using assignRoundRobin_disjoint _ hnd' hfresh hpw

/-- C2 witness: no double seating at a concrete call with two users, one of
them already seated. -/
theorem claim_C2_no_duplicate_seating_witness :
    noDoubleSeating (assignUsersToTables [sampleUser "a", sampleUser "b"]
      ⟨2, false⟩ [⟨"t1", "T1", [sampleMember "a"]⟩]) :=
  claim_C2_no_duplicate_seating [sampleUser "a", sampleUser "b"] ⟨2, false⟩
    [⟨"t1", "T1", [sampleMember "a"]⟩] (by decide)
    (by rw [noDoubleSeating]; exact List.pairwise_singleton _ _)

/-- C3: in the round-robin fill, each user in turn is placed on the table
with the fewest current members among the non-full tables, ties broken by
the first such table in creation order (pickTable returns an index whose
member count is strictly below every earlier table and at most every
table); when no such table exists a fresh table is appended holding that
user; and the concrete scenario assign of three users at cap 2 into no
tables yields exactly two tables of sizes 2 and 1. -/
theorem claim_C3_round_robin_policy :
    (∀ (cap : Nat) (ts : List Table) (p : Nat), pickTable cap ts = some p →
      ∃ t, ts[p]? = some t ∧ t.members.length < cap ∧
        (∀ j b, j < p → ts[j]? = some b → t.members.length < b.members.length) ∧
        (∀ b ∈ ts, t.members.length ≤ b.members.length)) ∧
    (∀ (cap : Nat) (ts : List Table), pickTable cap ts = none →
      ∀ t ∈ ts, cap ≤ t.members.length) ∧
    (∀ (cap : Nat) (ts : List Table) (u : User) (p : Nat),
      pickTable cap ts = some p →
      ∃ t, ts[p]? = some t ∧
        rrStep cap ts u = ts.set p { t with members := t.members ++ [memberOfUser u] }) ∧
    (∀ (cap : Nat) (ts : List Table) (u : User), pickTable cap ts = none →
      rrStep cap ts u = ts ++ [newTable (ts.length + 1) [memberOfUser u]]) ∧
    ((assignUsersToTables [sampleUser "a", sampleUser "b", sampleUser "c"]
        ⟨2, false⟩ []).map (·.members.length) = [2, 1]) := by
  refine ⟨?_, ?_, ?_, ?_, ?_⟩
  · intro cap ts p h
    exact pickTable_some h
  · intro cap ts h
    exact pickTable_none h
  · intro cap ts u p h
    obtain ⟨t, hp, _, heq⟩ := rrStep_eq_set u h
    exact ⟨t, hp, heq⟩
  · intro cap ts u h
    exact rrStep_eq_append u h
  · rfl

/-- C3 witness: the selection characterization applied at a concrete
working list where the second table is the unique least-occupied one. -/
theorem claim_C3_round_robin_policy_witness :
    ∃ t, [(⟨"t1", "T1", [sampleMember "x"]⟩ : Table), ⟨"t2", "T2", []⟩][1]? = some t ∧
      t.members.length < 2 ∧
      (∀ j b, j < 1 →
        [(⟨"t1", "T1", [sampleMember "x"]⟩ : Table), ⟨"t2", "T2", []⟩][j]? = some b →
        t.members.length < b.members.length) ∧
      (∀ b ∈ [(⟨"t1", "T1", [sampleMember "x"]⟩ : Table), ⟨"t2", "T2", []⟩],
        t.members.length ≤ b.members.length) :=
  claim_C3_round_robin_policy.1 2
    [⟨"t1", "T1", [sampleMember "x"]⟩, ⟨"t2", "T2", []⟩] 1 (by decide)

/-- C4: on success, move removes the user's member snapshot from the
source table (first table whose id matches fromTableId) and appends it to
the destination table, leaving every other table untouched and deleting no
table (the length is preserved even when the source becomes empty); on
every validation failure the returned table list is content-equal to the
input (the deep copy of the source is the identity on immutable values,
so copy-versus-reference aliasing is not observable in this model). -/
theorem claim_C4_move_correctness (tables : List Table)
    (userId fromTableId toTableId : String) (cap : Nat) :
    ((moveUserBetweenTables tables userId fromTableId toTableId cap).success = false →
      (moveUserBetweenTables tables userId fromTableId toTableId cap).tables = tables) ∧
    ((moveUserBetweenTables tables userId fromTableId toTableId cap).success = true →
      ∃ fi ti tf tt ui snap,
        findIndex (fun t => t.id == fromTableId) tables = some fi ∧
        findIndex (fun t => t.id == toTableId) tables = some ti ∧
        tables[fi]? = some tf ∧ tables[ti]? = some tt ∧
        tf.id = fromTableId ∧ tt.id = toTableId ∧
        tt.members.length < cap ∧
        findIndex (fun m => m.id == some userId) tf.members = some ui ∧
        tf.members[ui]? = some snap ∧ snap.id = some userId ∧
        (moveUserBetweenTables tables userId fromTableId toTableId cap).tables.length
          = tables.length ∧
        (∀ k, k ≠ fi → k ≠ ti →
          (moveUserBetweenTables tables userId fromTableId toTableId cap).tables[k]?
            = tables[k]?) ∧
        (fi ≠ ti →
          (moveUserBetweenTables tables userId fromTableId toTableId cap).tables[fi]?
              = some { tf with members := tf.members.eraseIdx ui } ∧
          (moveUserBetweenTables tables userId fromTableId toTableId cap).tables[ti]?
              = some { tt with members := tt.members ++ [snap] }) ∧
        (fi = ti →
          (moveUserBetweenTables tables userId fromTableId toTableId cap).tables[fi]?
              = some { tf with members := tf.members.eraseIdx ui ++ [snap] })) := by
  rcases move_characterization tables userId fromTableId toTableId cap with
    ⟨hs, heq⟩ | ⟨hs, fi, ti, tf, tt, ui, snap, hfi, hti, htf, htt, hfid, htid,
      hltcap, hui, hsnap, hsnapid, heq⟩
  · refine ⟨fun _ => heq, fun htr => absurd (hs.symm.trans htr) (by decide)⟩
  · refine ⟨fun hfalse => absurd (hs.symm.trans hfalse) (by decide), fun _ => ?_⟩
    refine ⟨fi, ti, tf, tt, ui, snap, hfi, hti, htf, htt, hfid, htid, hltcap,
      hui, hsnap, hsnapid, ?_, ?_, ?_, ?_⟩
    · rw [heq, length_modifyAt, length_modifyAt]
    · intro k hkfi hkti
      rw [heq, modifyAt_getElem_ne _ _ (Ne.symm hkti),
        modifyAt_getElem_ne _ _ (Ne.symm hkfi)]
    · intro hne
      constructor
      · rw [heq, modifyAt_getElem_ne _ _ (Ne.symm hne)]
        exact modifyAt_getElem_self _ htf
      · rw [heq]
        have h1 : (modifyAt tables fi
            fun t => { t with members := t.members.eraseIdx ui })[ti]? = some tt := by
          rw [modifyAt_getElem_ne _ _ hne]; exact htt
        exact modifyAt_getElem_self _ h1
    · intro heq2
      subst heq2
      obtain rfl : tf = tt := by rw [htf] at htt; simpa using htt
      rw [heq]
      have h1 : (modifyAt tables fi
          fun t => { t with members := t.members.eraseIdx ui })[fi]?
            = some { tf with members := tf.members.eraseIdx ui } :=
        modifyAt_getElem_self _ htf
      have h2 := modifyAt_getElem_self
        (fun t => { t with members := t.members ++ [snap] }) h1
      simpa using h2

/-- C4 witness: the move scenario of the specification, one member moved
from t1 to the empty t2 at cap 5. -/
theorem claim_C4_move_correctness_witness :
    ((moveUserBetweenTables [⟨"t1", "T1", [sampleMember "u1"]⟩, ⟨"t2", "T2", []⟩]
        "u1" "t1" "t2" 5).success = false →
      (moveUserBetweenTables [⟨"t1", "T1", [sampleMember "u1"]⟩, ⟨"t2", "T2", []⟩]
        "u1" "t1" "t2" 5).tables
          = [⟨"t1", "T1", [sampleMember "u1"]⟩, ⟨"t2", "T2", []⟩]) ∧
    ((moveUserBetweenTables [⟨"t1", "T1", [sampleMember "u1"]⟩, ⟨"t2", "T2", []⟩]
        "u1" "t1" "t2" 5).success = true →
      ∃ (fi ti : Nat) (tf tt : Table) (ui : Nat) (snap : Member),
        findIndex (fun t => t.id == "t1")
          ([⟨"t1", "T1", [sampleMember "u1"]⟩, ⟨"t2", "T2", []⟩] : List Table) = some fi ∧
        findIndex (fun t => t.id == "t2")
          ([⟨"t1", "T1", [sampleMember "u1"]⟩, ⟨"t2", "T2", []⟩] : List Table) = some ti ∧
        [(⟨"t1", "T1", [sampleMember "u1"]⟩ : Table), ⟨"t2", "T2", []⟩][fi]? = some tf ∧
        [(⟨"t1", "T1", [sampleMember "u1"]⟩ : Table), ⟨"t2", "T2", []⟩][ti]? = some tt ∧
        tf.id = "t1" ∧ tt.id = "t2" ∧
        tt.members.length < 5 ∧
        findIndex (fun m => m.id == some "u1") tf.members = some ui ∧
        tf.members[ui]? = some snap ∧ snap.id = some "u1" ∧
        (moveUserBetweenTables [⟨"t1", "T1", [sampleMember "u1"]⟩, ⟨"t2", "T2", []⟩]
          "u1" "t1" "t2" 5).tables.length
            = [(⟨"t1", "T1", [sampleMember "u1"]⟩ : Table), ⟨"t2", "T2", []⟩].length ∧
        (∀ k, k ≠ fi → k ≠ ti →
          (moveUserBetweenTables [⟨"t1", "T1", [sampleMember "u1"]⟩, ⟨"t2", "T2", []⟩]
            "u1" "t1" "t2" 5).tables[k]?
              = [(⟨"t1", "T1", [sampleMember "u1"]⟩ : Table), ⟨"t2", "T2", []⟩][k]?) ∧
        (fi ≠ ti →
          (moveUserBetweenTables [⟨"t1", "T1", [sampleMember "u1"]⟩, ⟨"t2", "T2", []⟩]
            "u1" "t1" "t2" 5).tables[fi]?
              = some { tf with members := tf.members.eraseIdx ui } ∧
          (moveUserBetweenTables [⟨"t1", "T1", [sampleMember "u1"]⟩, ⟨"t2", "T2", []⟩]
            "u1" "t1" "t2" 5).tables[ti]?
              = some { tt with members := tt.members ++ [snap] }) ∧
        (fi = ti →
          (moveUserBetweenTables [⟨"t1", "T1", [sampleMember "u1"]⟩, ⟨"t2", "T2", []⟩]
            "u1" "t1" "t2" 5).tables[fi]?
              = some { tf with members := tf.members.eraseIdx ui ++ [snap] })) :=
  claim_C4_move_correctness [⟨"t1", "T1", [sampleMember "u1"]⟩, ⟨"t2", "T2", []⟩]
    "u1" "t1" "t2" 5

/-- C5: for every input table list and every sequence of random choices,
the multiset of member snapshots (hence of member ids) of the shuffle
output equals that of its input, the total member count is conserved, and
the output is re-chunked sequentially into fresh tables of exactly
maxPeoplePerTable members except possibly the last, which is nonempty and
may be under-full. Requires cap ≥ 1: the source loop does not terminate
at cap = 0, which is outside the documented settings domain. -/
theorem claim_C5_shuffle_permutation (tables : List Table) (cap : Nat)
    (rand : Nat → Nat) (hcap : 1 ≤ cap) :
    List.Perm ((shuffleTables tables cap rand).flatMap (·.members))
      (tables.flatMap (·.members)) ∧
    List.Perm (((shuffleTables tables cap rand).flatMap (·.members)).map (·.id))
      ((tables.flatMap (·.members)).map (·.id)) ∧
    ((shuffleTables tables cap rand).flatMap (·.members)).length
      = (tables.flatMap (·.members)).length ∧
    (∀ t ∈ (shuffleTables tables cap rand).dropLast, t.members.length = cap) ∧
    (∀ t ∈ shuffleTables tables cap rand,
      1 ≤ t.members.length ∧ t.members.length ≤ cap) := by
  have hperm : List.Perm ((shuffleTables tables cap rand).flatMap (·.members))
      (tables.flatMap (·.members)) := by
    rw [shuffleTables_members_eq, chunkMembers, chunkAux_flatten _ _ _ le_rfl hcap]
    exact fisherYates_perm rand _
  refine ⟨hperm, hperm.map (·.id), hperm.length_eq, ?_, ?_⟩
  · intro t ht
    have hmem : t.members ∈ ((shuffleTables tables cap rand).dropLast).map (·.members) :=
      List.mem_map_of_mem (·.members) ht
    rw [← map_dropLast, shuffleTables_memberLists, chunkMembers] at hmem
    exact chunkAux_dropLast_length _ cap _ le_rfl hcap _ hmem
  · intro t ht
    have hmem : t.members ∈ (shuffleTables tables cap rand).map (·.members) :=
      List.mem_map_of_mem (·.members) ht
    rw [shuffleTables_memberLists, chunkMembers] at hmem
    exact chunkAux_length_le _ cap _ le_rfl hcap _ hmem

/-- C5 witness: the shuffle scenario of the specification, six members at
cap 5 chunked into tables of sizes 5 and 1, together with the general
theorem instantiated there. -/
theorem claim_C5_shuffle_permutation_witness :
    ((shuffleTables [⟨"t1", "T1", [sampleMember "1", sampleMember "2",
        sampleMember "3", sampleMember "4", sampleMember "5", sampleMember "6"]⟩]
        5 (fun _ => 0)).map (·.members.length) = [5, 1]) ∧
    (∀ t ∈ shuffleTables [⟨"t1", "T1", [sampleMember "1", sampleMember "2",
        sampleMember "3", sampleMember "4", sampleMember "5", sampleMember "6"]⟩]
        5 (fun _ => 0),
      1 ≤ t.members.length ∧ t.members.length ≤ 5) :=
  ⟨by rfl,
    (claim_C5_shuffle_permutation [⟨"t1", "T1", [sampleMember "1", sampleMember "2",
      sampleMember "3", sampleMember "4", sampleMember "5", sampleMember "6"]⟩]
      5 (fun _ => 0) (by decide)).2.2.2.2⟩

/-- C6: calling assign a second time with existingTables equal to the
first call's output, the same users and the same settings, returns the
first output unchanged, in both considerLocation modes; no hypotheses are
needed because the first call seats every input user. -/
theorem claim_C6_idempotent_refilter (users : List User) (settings : Settings)
    (existingTables : List Table) :
    assignUsersToTables users settings (assignUsersToTables users settings existingTables)
      = assignUsersToTables users settings existingTables := by
  have hnil : (users.filter fun u =>
      decide (u.id ∉ allMemberIds (assignUsersToTables users settings existingTables)))
        = [] := by
    rw [List.filter_eq_nil_iff]
    intro u hu
    simpa using assign_seats_all users settings existingTables u hu
  conv_lhs => rw [assignUsersToTables]
  rw [hnil]
  cases hc : settings.considerLocation with
  | true => simp [assignByLocation, locationGroups]
  | false => simp [assignRoundRobin]

/-- C7 counterexample: at the degenerate input totalUsers = 0 the division
by zero is NOT guarded: totalTables is 0 but the other three fields are
NaN (modelled as none), so not every returned field is a well-defined
number, refuting the degenerate-case part of the claim. -/
theorem claim_C7_counterexample :
    (getTableDistributionStats 0 5).totalTables = some 0 ∧
    (getTableDistributionStats 0 5).averagePeoplePerTable = none ∧
    (getTableDistributionStats 0 5).tablesWithExtraPerson = none ∧
    (getTableDistributionStats 0 5).tablesWithNormalCount = none := by
  decide

/-- C7 amended: for totalUsers ≥ 1 and maxPeoplePerTable ≥ 2 every field is
a finite number, totalTables is the ceiling of totalUsers / cap (witnessed
by the two bounds), and (tablesWithNormalCount * averagePerTable) +
(tablesWithExtraPerson * (averagePerTable + 1)) = totalUsers; in the
degenerate case totalUsers = 0 the function returns totalTables = 0, but
the division by zero is not guarded, so the remaining fields are NaN
(none), not well-defined numbers. -/
theorem claim_C7_stats_consistency (totalUsers cap : Nat)
    (h1 : 1 ≤ totalUsers) (h2 : 2 ≤ cap) :
    (∃ m avg extra normal,
      (getTableDistributionStats totalUsers cap).totalTables = some m ∧
      (getTableDistributionStats totalUsers cap).averagePeoplePerTable = some avg ∧
      (getTableDistributionStats totalUsers cap).tablesWithExtraPerson = some extra ∧
      (getTableDistributionStats totalUsers cap).tablesWithNormalCount = some normal ∧
      m = (totalUsers + cap - 1) / cap ∧
      totalUsers ≤ cap * m ∧ cap * (m - 1) < totalUsers ∧
      avg = totalUsers / m ∧ extra = totalUsers % m ∧ normal = m - extra ∧
      normal * avg + extra * (avg + 1) = totalUsers) ∧
    ((getTableDistributionStats 0 cap).totalTables = some 0 ∧
      (getTableDistributionStats 0 cap).averagePeoplePerTable = none ∧
      (getTableDistributionStats 0 cap).tablesWithExtraPerson = none ∧
      (getTableDistributionStats 0 cap).tablesWithNormalCount = none) := by
  have hcap0 : ¬ cap = 0 := by omega
  have hdm := Nat.div_add_mod (totalUsers + cap - 1) cap
  have hrm := Nat.mod_lt (totalUsers + cap - 1) (show 0 < cap by omega)
  have hm1 : 1 ≤ (totalUsers + cap - 1) / cap := by
    rcases Nat.eq_zero_or_pos ((totalUsers + cap - 1) / cap) with hz | hp
    · rw [hz, Nat.mul_zero] at hdm; omega
    · exact hp
  have hmne : ¬ (totalUsers + cap - 1) / cap = 0 := by omega
  constructor
  · refine ⟨(totalUsers + cap - 1) / cap,
      totalUsers / ((totalUsers + cap - 1) / cap),
      totalUsers % ((totalUsers + cap - 1) / cap),
      (totalUsers + cap - 1) / cap - totalUsers % ((totalUsers + cap - 1) / cap),
      ?_, ?_, ?_, ?_, rfl, ?_, ?_, rfl, rfl, rfl, ?_⟩
    · simp [getTableDistributionStats, jsCeilDiv, hcap0]
    · simp [getTableDistributionStats, jsCeilDiv, jsFloorDivOpt, hcap0, hmne]
    · simp [getTableDistributionStats, jsCeilDiv, jsModOpt, hcap0, hmne]
    · simp [getTableDistributionStats, jsCeilDiv, jsFloorDivOpt, jsModOpt,
        jsSubOpt, hcap0, hmne]
    · omega
    · have hx : cap * ((totalUsers + cap - 1) / cap)
          = cap * ((totalUsers + cap - 1) / cap - 1) + cap := by
        conv_lhs => rw [show (totalUsers + cap - 1) / cap
          = ((totalUsers + cap - 1) / cap - 1) + 1 from by omega]
        rw [Nat.mul_add, Nat.mul_one]
      omega
    · have hd2 := Nat.div_add_mod totalUsers ((totalUsers + cap - 1) / cap)
      have hr2 : totalUsers % ((totalUsers + cap - 1) / cap)
          < (totalUsers + cap - 1) / cap := Nat.mod_lt _ (by omega)
      have hsub : ((totalUsers + cap - 1) / cap
              - totalUsers % ((totalUsers + cap - 1) / cap))
            * (totalUsers / ((totalUsers + cap - 1) / cap))
          = ((totalUsers + cap - 1) / cap)
              * (totalUsers / ((totalUsers + cap - 1) / cap))
            - (totalUsers % ((totalUsers + cap - 1) / cap))
              * (totalUsers / ((totalUsers + cap - 1) / cap)) := Nat.sub_mul _ _ _
      have hmul : (totalUsers % ((totalUsers + cap - 1) / cap))
            * (totalUsers / ((totalUsers + cap - 1) / cap) + 1)
          = (totalUsers % ((totalUsers + cap - 1) / cap))
              * (totalUsers / ((totalUsers + cap - 1) / cap))
            + totalUsers % ((totalUsers + cap - 1) / cap) := by
        rw [Nat.mul_add, Nat.mul_one]
      have hle : (totalUsers % ((totalUsers + cap - 1) / cap))
            * (totalUsers / ((totalUsers + cap - 1) / cap))
          ≤ ((totalUsers + cap - 1) / cap)
              * (totalUsers / ((totalUsers + cap - 1) / cap)) :=
        Nat.mul_le_mul_right _ (le_of_lt hr2)
      omega
  · have hz : (cap - 1) / cap = 0 := Nat.div_eq_of_lt (by omega)
    refine ⟨?_, ?_, ?_, ?_⟩ <;>
      simp [getTableDistributionStats, jsCeilDiv, jsFloorDivOpt, jsModOpt,
        jsSubOpt, hcap0, hz]

/-- C7 witness: the amended statement applied at the scenario input
totalUsers = 7, cap = 5 (which yields 2 tables, average 3, one table with
an extra person, one normal). -/
theorem claim_C7_stats_consistency_witness :
    ((getTableDistributionStats 7 5).totalTables = some 2 ∧
      (getTableDistributionStats 7 5).averagePeoplePerTable = some 3 ∧
      (getTableDistributionStats 7 5).tablesWithExtraPerson = some 1 ∧
      (getTableDistributionStats 7 5).tablesWithNormalCount = some 1) ∧
    (∃ m avg extra normal,
      (getTableDistributionStats 7 5).totalTables = some m ∧
      (getTableDistributionStats 7 5).averagePeoplePerTable = some avg ∧
      (getTableDistributionStats 7 5).tablesWithExtraPerson = some extra ∧
      (getTableDistributionStats 7 5).tablesWithNormalCount = some normal ∧
      m = (7 + 5 - 1) / 5 ∧
      7 ≤ 5 * m ∧ 5 * (m - 1) < 7 ∧
      avg = 7 / m ∧ extra = 7 % m ∧ normal = m - extra ∧
      normal * avg + extra * (avg + 1) = 7) :=
  ⟨by decide, (claim_C7_stats_consistency 7 5 (by decide) (by decide)).1⟩

/-- C8 counterexample: a user record with a missing id is NOT silently
skipped: assign seats it, so the output contains a member whose id is
missing, refuting the claim at a concrete input. -/
theorem claim_C8_counterexample :
    ¬ (∀ t ∈ assignUsersToTables [userNoId] ⟨5, false⟩ [],
        ∀ m ∈ t.members, ¬ (m.id = none ∨ m.id = some "")) := by
  decide

/-- C8 amended: assign never errors and does not skip malformed user
records: every input user, whether or not its id is missing or empty, ends
up seated, so its id appears among the output member ids (trivially so if
that id was already seated in existingTables). -/
theorem claim_C8_malformed_not_skipped (users : List User) (settings : Settings)
    (tables : List Table) :
    ∀ u ∈ users, u.id ∈ allMemberIds (assignUsersToTables users settings tables) :=
  assign_seats_all users settings tables

/-- C8 witness: the concrete call seats the user whose record has no id
instead of skipping it. -/
theorem claim_C8_malformed_not_skipped_witness :
    userNoId.id ∈ allMemberIds (assignUsersToTables [userNoId] ⟨5, false⟩ []) :=
  claim_C8_malformed_not_skipped [userNoId] ⟨5, false⟩ [] userNoId (by decide)

/-- C9 counterexample: with considerLocation = true, two location buckets
(here one user without a location and one with a location) each
round-robin-fill a fresh working list, so both fresh tables get the
ordinal-1 id: the output is two tables both named "table-1", and the table
ids are not pairwise distinct. -/
theorem claim_C9_counterexample :
    ((assignUsersToTables [sampleUser "a", sampleUserAt "b" 0 0]
        ⟨5, true⟩ []).map (·.id) = ["table-1", "table-1"]) ∧
    ¬ ((assignUsersToTables [sampleUser "a", sampleUserAt "b" 0 0]
        ⟨5, true⟩ []).map (·.id)).Nodup := by
  have h : ((assignUsersToTables [sampleUser "a", sampleUserAt "b" 0 0]
      ⟨5, true⟩ []).map (·.id)) = ["table-1", "table-1"] := rfl
  refine ⟨h, ?_⟩
  rw [h]
  decide

/-- C9 amended: in the round-robin mode (considerLocation = false) every
newly created table's id and name are derived from its 1-based ordinal
position in the working result list (consecutive ordinals after the
existing tables), and the output ids are pairwise distinct provided the
existing ids are pairwise distinct and no existing id has the generated
form table-k; with considerLocation = true each bucket restarts numbering
from 1, so ids may repeat across buckets (see the counterexample). -/
theorem claim_C9_table_ids (users : List User) (cap : Nat)
    (existingTables : List Table)
    (hnd : (existingTables.map (·.id)).Nodup)
    (hnoclash : ∀ t ∈ existingTables, ∀ k, t.id ≠ tableIdFor k) :
    (∃ k, ((assignUsersToTables users ⟨cap, false⟩ existingTables).map
        fun t => (t.id, t.name))
      = (existingTables.map fun t => (t.id, t.name))
        ++ (List.range' (existingTables.length + 1) k).map
            fun j => (tableIdFor j, tableNameFor j)) ∧
    ((assignUsersToTables users ⟨cap, false⟩ existingTables).map (·.id)).Nodup := by
  have hrw : assignUsersToTables users ⟨cap, false⟩ existingTables
      = assignRoundRobin (users.filter fun u =>
          decide (u.id ∉ allMemberIds existingTables)) existingTables cap := rfl
  rw [hrw]
  exact ⟨assignRoundRobin_headers _ _ _,
    assignRoundRobin_ids_nodup _ _ _ hnd hnoclash⟩

/-- C9 witness: the amended statement applied at a concrete call with no
existing tables and one user. -/
theorem claim_C9_table_ids_witness :
    (∃ k, ((assignUsersToTables [sampleUser "a"] ⟨2, false⟩ []).map
        fun t => (t.id, t.name))
      = (([] : List Table).map fun t => (t.id, t.name))
        ++ (List.range' (([] : List Table).length + 1) k).map
            fun j => (tableIdFor j, tableNameFor j)) ∧
    ((assignUsersToTables [sampleUser "a"] ⟨2, false⟩ []).map (·.id)).Nodup :=
  claim_C9_table_ids [sampleUser "a"] 2 [] (by decide) (by simp)

/-- C10: the session-exit hook removes the departing user's member
snapshot from the first table containing it; against an honest store the
table document is deleted exactly when the reduced member list is empty
and otherwise written back with exactly the reduced member list; with any
store behaviour (including failing ones) the hook is total and either
leaves the snapshot unchanged (no seat found, or the failure was
swallowed) or returns the successful store result — it never propagates an
error — and logout always reaches its sign-out step. The table ids are
assumed pairwise distinct, as the store keys its documents by id. -/
theorem claim_C10_session_exit_hook (tables : List Table) (uid : String)
    (hnd : (tables.map (·.id)).Nodup) :
    ((∀ t ∈ tables, ∀ m ∈ t.members, ¬ m.id = some uid) →
      removeUserFromTable honestStore tables uid = tables) ∧
    ((∃ t ∈ tables, ∃ m ∈ t.members, m.id = some uid) →
      ∃ (i : Nat) (t : Table), tables[i]? = some t ∧
        (t.members.any fun m => m.id == some uid) = true ∧
        (∀ j b, j < i → tables[j]? = some b →
          ¬ (b.members.any fun m => m.id == some uid) = true) ∧
        ((t.members.filter fun m => decide (¬ m.id = some uid)).length = 0 →
          removeUserFromTable honestStore tables uid = tables.eraseIdx i) ∧
        (¬ (t.members.filter fun m => decide (¬ m.id = some uid)).length = 0 →
          removeUserFromTable honestStore tables uid
            = tables.set i { t with members := t.members.filter (fun m => decide (¬ m.id = some uid)) })) ∧
    (∀ store : StoreOp → List Table → Except String (List Table),
      removeUserFromTable store tables uid = tables ∨
      ∃ op docs, removeUserPlan tables uid = some op ∧
        store op tables = Except.ok docs ∧
        removeUserFromTable store tables uid = docs) ∧
    (∀ (store : StoreOp → List Table → Except String (List Table))
        (cu : Option String), (logout store cu tables).2 = true) ∧
    (removeUserFromTable (fun _ _ => Except.error "storeFailure") tables uid
      = tables) := by
  refine ⟨?_, ?_, ?_, ?_, ?_⟩
  · intro h
    have hfind : tables.find? (fun t => t.members.any fun m => m.id == some uid)
        = none := by
      rw [List.find?_eq_none]
      intro t ht
      intro hcontra
      rw [List.any_eq_true] at hcontra
      obtain ⟨m, hm, hid⟩ := hcontra
      exact h t ht m hm (by simpa using hid)
    rw [removeUserFromTable, removeUserPlan]
    simp only [hfind]
  · rintro ⟨t0, ht0, m0, hm0, hid0⟩
    have hfs : (tables.find? fun t => t.members.any fun m => m.id == some uid).isSome := by
      rw [List.find?_isSome]
      refine ⟨t0, ht0, ?_⟩
      rw [List.any_eq_true]
      exact ⟨m0, hm0, by simpa using hid0⟩
    obtain ⟨ut, hut⟩ := Option.isSome_iff_exists.mp hfs
    obtain ⟨i, hi, hpt, hfirst⟩ := find?_first hut
    refine ⟨i, ut, hi, hpt, hfirst, ?_, ?_⟩
    · intro hlen0
      have hplan : removeUserPlan tables uid
          = some (StoreOp.deleteTable ut.id) := by
        rw [removeUserPlan, hut]
        show (if (ut.members.filter fun m => decide (¬ m.id = some uid)).length = 0
          then some (StoreOp.deleteTable ut.id)
          else some (StoreOp.setTable { ut with members := ut.members.filter (fun m => decide (¬ m.id = some uid)) }))
            = some (StoreOp.deleteTable ut.id)
        rw [if_pos hlen0]
      rw [removeUserFromTable]
      simp only [hplan]
      show applyStoreOp tables (StoreOp.deleteTable ut.id) = tables.eraseIdx i
      rw [applyStoreOp]
      exact filter_ne_eq_eraseIdx hnd hi
    · intro hlen
      have hplan : removeUserPlan tables uid
          = some (StoreOp.setTable { ut with members := ut.members.filter (fun m => decide (¬ m.id = some uid)) }) := by
        rw [removeUserPlan, hut]
        show (if (ut.members.filter fun m => decide (¬ m.id = some uid)).length = 0
          then some (StoreOp.deleteTable ut.id)
          else some (StoreOp.setTable { ut with members := ut.members.filter (fun m => decide (¬ m.id = some uid)) }))
            = some (StoreOp.setTable { ut with members := ut.members.filter (fun m => decide (¬ m.id = some uid)) })
        rw [if_neg hlen]
      rw [removeUserFromTable]
      simp only [hplan]
      show applyStoreOp tables
        (StoreOp.setTable { ut with members := ut.members.filter (fun m => decide (¬ m.id = some uid)) })
          = tables.set i { ut with members := ut.members.filter (fun m => decide (¬ m.id = some uid)) }
      rw [applyStoreOp]
      rw [if_pos (any_id_eq_true hi rfl)]
      exact @map_replace_eq_set tables i ut
        { ut with members := ut.members.filter (fun m => decide (¬ m.id = some uid)) } hnd hi
  · intro store
    cases hplan : removeUserPlan tables uid with
    | none =>
      left
      rw [removeUserFromTable]
      simp only [hplan]
    | some op =>
      cases hst : store op tables with
      | ok docs =>
        right
        refine ⟨op, docs, rfl, hst, ?_⟩
        rw [removeUserFromTable]
        simp only [hplan, hst]
      | error e =>
        left
        rw [removeUserFromTable]
        simp only [hplan, hst]
  · intro store cu
    cases cu <;> rfl
  · cases hplan : removeUserPlan tables uid with
    | none =>
      rw [removeUserFromTable]
      simp only [hplan]
    | some op =>
      rw [removeUserFromTable]
      simp only [hplan]

/-- C10 witness: the hook applied at a concrete snapshot with two seated
members, removing one of them. -/
theorem claim_C10_session_exit_hook_witness :
    ((∀ t ∈ [(⟨"t1", "T1", [sampleMember "u1", sampleMember "u2"]⟩ : Table)],
        ∀ m ∈ t.members, ¬ m.id = some "u2") →
      removeUserFromTable honestStore
        [⟨"t1", "T1", [sampleMember "u1", sampleMember "u2"]⟩] "u2"
          = [⟨"t1", "T1", [sampleMember "u1", sampleMember "u2"]⟩]) ∧
    ((∃ t ∈ [(⟨"t1", "T1", [sampleMember "u1", sampleMember "u2"]⟩ : Table)],
        ∃ m ∈ t.members, m.id = some "u2") →
      ∃ (i : Nat) (t : Table),
        [(⟨"t1", "T1", [sampleMember "u1", sampleMember "u2"]⟩ : Table)][i]? = some t ∧
        (t.members.any fun m => m.id == some "u2") = true ∧
        (∀ j b, j < i →
          [(⟨"t1", "T1", [sampleMember "u1", sampleMember "u2"]⟩ : Table)][j]? = some b →
          ¬ (b.members.any fun m => m.id == some "u2") = true) ∧
        ((t.members.filter fun m => decide (¬ m.id = some "u2")).length = 0 →
          removeUserFromTable honestStore
            [⟨"t1", "T1", [sampleMember "u1", sampleMember "u2"]⟩] "u2"
              = [(⟨"t1", "T1", [sampleMember "u1", sampleMember "u2"]⟩ : Table)].eraseIdx i) ∧
        (¬ (t.members.filter fun m => decide (¬ m.id = some "u2")).length = 0 →
          removeUserFromTable honestStore
            [⟨"t1", "T1", [sampleMember "u1", sampleMember "u2"]⟩] "u2"
              = [(⟨"t1", "T1", [sampleMember "u1", sampleMember "u2"]⟩ : Table)].set i
                  { t with members := t.members.filter (fun m => decide (¬ m.id = some "u2")) })) ∧
    (∀ store : StoreOp → List Table → Except String (List Table),
      removeUserFromTable store
        [⟨"t1", "T1", [sampleMember "u1", sampleMember "u2"]⟩] "u2"
          = [⟨"t1", "T1", [sampleMember "u1", sampleMember "u2"]⟩] ∨
      ∃ op docs, removeUserPlan
          [⟨"t1", "T1", [sampleMember "u1", sampleMember "u2"]⟩] "u2" = some op ∧
        store op [⟨"t1", "T1", [sampleMember "u1", sampleMember "u2"]⟩]
          = Except.ok docs ∧
        removeUserFromTable store
          [⟨"t1", "T1", [sampleMember "u1", sampleMember "u2"]⟩] "u2" = docs) ∧
    (∀ (store : StoreOp → List Table → Except String (List Table))
        (cu : Option String),
      (logout store cu [⟨"t1", "T1", [sampleMember "u1", sampleMember "u2"]⟩]).2
        = true) ∧
    (removeUserFromTable (fun _ _ => Except.error "storeFailure")
      [⟨"t1", "T1", [sampleMember "u1", sampleMember "u2"]⟩] "u2"
        = [⟨"t1", "T1", [sampleMember "u1", sampleMember "u2"]⟩]) :=
  claim_C10_session_exit_hook
    [⟨"t1", "T1", [sampleMember "u1", sampleMember "u2"]⟩] "u2" (by decide)

end TimeLeft
